import Mathlib

/-!
# standardSA: the Spalart-Allmaras closure of `src/standardSA.C`

The model follows one mesh cell.  Every operation of the source acts cell by
cell on its fields; what couples cells (the velocity gradient, the gradient of
`nuTilda`, the linear solver, the source options) enters as an external input
of the cell, collected in `External`.  Scalars are the elements of a linearly
ordered field `K` (exact arithmetic); `exp` and the sixth root need the reals.

A division whose divisor is zero has no value: the functions that divide return
`Option`, and `none` stands for the arithmetic fault (a trapped floating-point
exception, or a NaN that spreads over the cell).
-/

namespace StandardSA

/-! ## Data model -/

/-- The coefficients of the model (`sigmaNut_` ... `Cs_`) and the mode flag
`neg_`.  `Cw1` is a stored member computed from `Cb1`, `kappa`, `Cb2` and
`sigmaNut` by the constructor and by `read()`. -/
structure Coeffs (K : Type) where
  sigmaNut : K
  kappa : K
  Cb1 : K
  Cb2 : K
  Cw1 : K
  Cw2 : K
  Cw3 : K
  Cv1 : K
  Cv2 : K
  Cv3 : K
  Ct3 : K
  Ct4 : K
  Cn1 : K
  Cs : K
  neg_ : Bool

/-- A linear form `su + sp * psi` in the unknown `psi` of the transport
equation: `su` is the explicit part and `sp` the coefficient that `fvm::Sp`
puts on the unknown. -/
structure LinForm (K : Type) where
  su : K
  sp : K

/-- The equation handed to the solver, in one cell: the coefficient passed to
`fvm::laplacian`, the explicit gradient term subtracted on the left, and the
right-hand side.  The operators `fvm::ddt`, `fvm::div` and `fvm::laplacian`
themselves belong to the discretisation library. -/
structure NuTildaEqn (K : Type) where
  diffusivity : K
  gradTerm : K
  source : LinForm K

/-- What the cell receives from outside the module: the molecular viscosity
`nu()`, the phase fraction and density, the wall distance `y_`, the vorticity
magnitude `sqrt(2)*mag(skew(grad(U)))`, `magSqr(grad(nuTilda))`, the constant
`small`, the matrix returned by `fvOptions(alpha, rho, nuTilda_)`, the hooks
`relax`, `constrain`, `solve`, and `fvOptions.correct` on `nuTilda_` and on
`nut_`, and the switch `turbulence_`. -/
structure External (K : Type) where
  nu : K
  alpha : K
  rho : K
  y : K
  Omega : K
  magSqrGradNuTilda : K
  small : K
  fvOptionsSource : K → LinForm K
  relax : NuTildaEqn K → NuTildaEqn K
  constrain : NuTildaEqn K → NuTildaEqn K
  solve : NuTildaEqn K → K
  fvOptionsCorrectNuTilda : K → K
  fvOptionsCorrectNut : K → K
  turbulence : Bool

/-- The two fields the model owns, in one cell. -/
structure CellState (K : Type) where
  nuTilda : K
  nut : K

section Closures

variable {K : Type} [LinearOrderedField K]

/-! ## Field primitives -/

/-- Division of two cell values; a zero divisor gives no value. -/
def fdiv (a b : K) : Option K :=
  if b = 0 then none else some (a / b)

/-- Modelled from the spec: the sign indicator `pos` of the field library,
`1 if x >= 0 else 0`. -/
def pos (x : K) : K :=
  if 0 ≤ x then 1 else 0

/-- Modelled from the spec: the sign indicator `neg` of the field library, the
complement of `pos`. -/
def neg (x : K) : K :=
  if x < 0 then 1 else 0

/-- Modelled from the spec: `bound` of `bound.H` clips a cell value to the
lower bound. -/
def bound (x lower : K) : K :=
  max x lower

instance : Add (LinForm K) := ⟨fun a b => ⟨a.su + b.su, a.sp + b.sp⟩⟩

/-- A field times a matrix expression: every entry of the cell is scaled. -/
def LinForm.scale (w : K) (a : LinForm K) : LinForm K :=
  ⟨w * a.su, w * a.sp⟩

/-- An explicit field `e` minus `fvm::Sp(coeff, psi)`. -/
def LinForm.explicitMinusSp (e coeff : K) : LinForm K :=
  ⟨e, -coeff⟩

/-- An explicit field `e` plus `fvm::Sp(coeff, psi)`. -/
def LinForm.explicitPlusSp (e coeff : K) : LinForm K :=
  ⟨e, coeff⟩

/-! ## Closure functions -/

/-- The source's `chi()`: `nuTilda_/this->nu()`. -/
def chi (nuTilda nu : K) : Option K :=
  fdiv nuTilda nu

/-- The source's `fv1(chi)`: `chi3/(chi3 + pow3(Cv1_))`. -/
def fv1 (c : Coeffs K) (chi : K) : Option K :=
  let chi3 := chi ^ 3
  fdiv chi3 (chi3 + c.Cv1 ^ 3)

/-- The source's `fv2(chi, fv1)`: `1.0 - chi/(1.0 + chi*fv1)`. -/
def fv2 (chi fv1 : K) : Option K :=
  (fdiv chi (1 + chi * fv1)).map fun q => 1 - q

/-- The value `Stilda` returns once `Omega` and `Sbar` are known. -/
def StildaOf (c : Coeffs K) (Omega Sbar : K) : Option K :=
  if c.neg_ then
    (fdiv (neg (c.Cv2 * Omega + Sbar) * (Omega * (c.Cv2 ^ 2 * Omega + c.Cv3 * Sbar)))
        ((c.Cv3 - 2 * c.Cv2) * Omega - Sbar)).map
      fun q => Omega + pos (c.Cv2 * Omega + Sbar) * Sbar + q
  else
    some (max (Omega + Sbar) (c.Cs * Omega))

/-- The local `Sbar` of `Stilda`: `fv2(chi, fv1)*nuTilda_/sqr(kappa_*y_)`. -/
def Sbar (c : Coeffs K) (ext : External K) (nuTilda chi fv1 : K) : Option K :=
  (fv2 chi fv1).bind fun f2 => fdiv (f2 * nuTilda) ((c.kappa * ext.y) ^ 2)

/-- The source's `Stilda(chi, fv1)`. -/
def Stilda (c : Coeffs K) (ext : External K) (nuTilda chi fv1 : K) : Option K :=
  (Sbar c ext nuTilda chi fv1).bind fun sbar => StildaOf c ext.Omega sbar

/-- The divisor of the ratio `r` in `fw`:
`max(Stilda, small)*sqr(kappa_*y_)`. -/
def fwDivisor (c : Coeffs K) (ext : External K) (Stilda : K) : K :=
  max Stilda ext.small * (c.kappa * ext.y) ^ 2

/-- The local `r` of `fw`, in a cell:
`min(nuTilda_/(max(Stilda, small)*sqr(kappa_*y_)), 10)`. -/
def fwR (c : Coeffs K) (ext : External K) (nuTilda Stilda : K) : Option K :=
  (fdiv nuTilda (fwDivisor c ext Stilda)).map fun q => min q 10

/-- The local `g` of `fw`: `r + Cw2_*(pow6(r) - r)`. -/
def fwG (c : Coeffs K) (r : K) : K :=
  r + c.Cw2 * (r ^ 6 - r)

/-- The source's `DnuTildaEff(chi)`. -/
def DnuTildaEff (c : Coeffs K) (nuTilda nu chi : K) : Option K :=
  let chi3 := chi ^ 3
  (fdiv (neg chi * (c.Cn1 + chi3)) (c.Cn1 - chi3)).bind fun q =>
    let fn := pos chi + q
    fdiv (nuTilda * fn + nu) c.sigmaNut

/-! ## Transport equation -/

/-- The right-hand side of `nuTildaEqn` in `correct()`, for given values of
`Stilda`, `ft2(chi)` and `fw(Stilda)`. -/
def nuTildaSource (c : Coeffs K) (ext : External K) (nuTilda Stilda ft2 fw : K) :
    Option (LinForm K) :=
  (fdiv (c.Cb1 * ext.alpha * ext.rho * ft2 * nuTilda) (c.kappa ^ 2)).bind fun q =>
  (fdiv (c.Cw1 * ext.alpha * ext.rho * fw * nuTilda - q) (ext.y ^ 2)).bind fun sinkPos =>
  (fdiv (c.Cw1 * ext.alpha * ext.rho * nuTilda) (ext.y ^ 2)).map fun sinkNeg =>
    LinForm.scale (pos nuTilda)
        (LinForm.explicitMinusSp
          (c.Cb1 * (1 - ft2) * ext.alpha * ext.rho * Stilda * nuTilda) sinkPos)
      + LinForm.scale (neg nuTilda)
        (LinForm.explicitPlusSp
          (c.Cb1 * (1 - c.Ct3) * ext.alpha * ext.rho * ext.Omega * nuTilda) sinkNeg)
      + ext.fvOptionsSource nuTilda

/-! ## Eddy viscosity -/

/-- The source's `correctNut(const volScalarField& fv1)`.  The boundary
conditions touch no cell value and the base model's `correctNut()` touches
neither field. -/
def correctNutOf (c : Coeffs K) (ext : External K) (s : CellState K) (fv1 : K) :
    CellState K :=
  let nut0 := s.nuTilda * fv1
  let nut1 := if c.neg_ then bound nut0 0 else nut0
  { s with nut := ext.fvOptionsCorrectNut nut1 }

/-- The source's `correctNut()`: `correctNut(fv1(this->chi()))`. -/
def correctNut (c : Coeffs K) (ext : External K) (s : CellState K) :
    Option (CellState K) :=
  (chi s.nuTilda ext.nu).bind fun x =>
  (fv1 c x).map fun f => correctNutOf c ext s f

end Closures

section RealClosures

/-! ## Closures that need the reals -/

/-- The source's `ft2(chi)`: `Ct3_*exp(-1.0*Ct4_*chi2)` with `chi2 = pow(chi,2)`. -/
noncomputable def ft2 (c : Coeffs ℝ) (chi : ℝ) : ℝ :=
  let chi2 := chi ^ 2
  c.Ct3 * Real.exp (-1 * c.Ct4 * chi2)

/-- The value `fw` returns once `g` is known:
`g*pow((1.0 + pow6(Cw3_))/(pow6(g) + pow6(Cw3_)), 1.0/6.0)`. -/
noncomputable def fwOfG (c : Coeffs ℝ) (g : ℝ) : Option ℝ :=
  (fdiv (1 + c.Cw3 ^ 6) (g ^ 6 + c.Cw3 ^ 6)).map fun q => g * q ^ ((1 : ℝ) / 6)

/-- The source's `fw(Stilda)`, in a cell. -/
noncomputable def fw (c : Coeffs ℝ) (ext : External ℝ) (nuTilda Stilda : ℝ) : Option ℝ :=
  (fwR c ext nuTilda Stilda).bind fun r => fwOfG c (fwG c r)

/-- The equation `nuTildaEqn` assembled in `correct()`. -/
noncomputable def nuTildaEqn (c : Coeffs ℝ) (ext : External ℝ) (nuTilda chi Stilda : ℝ) :
    Option (NuTildaEqn ℝ) :=
  (DnuTildaEff c nuTilda ext.nu chi).bind fun d =>
  (fdiv c.Cb2 c.sigmaNut).bind fun q =>
  (fw c ext nuTilda Stilda).bind fun fwv =>
  (nuTildaSource c ext nuTilda Stilda (ft2 c chi) fwv).map fun src =>
    { diffusivity := ext.alpha * ext.rho * d
      gradTerm := q * ext.alpha * ext.rho * ext.magSqrGradNuTilda
      source := src }

/-- The source's `correct()`. -/
noncomputable def correct (c : Coeffs ℝ) (ext : External ℝ) (s : CellState ℝ) :
    Option (CellState ℝ) :=
  if !ext.turbulence then
    some s
  else
    (chi s.nuTilda ext.nu).bind fun x =>
    (fv1 c x).bind fun f =>
    (Stilda c ext s.nuTilda x f).bind fun st =>
    (nuTildaEqn c ext s.nuTilda x st).map fun eqn =>
      let solved := ext.solve (ext.constrain (ext.relax eqn))
      let corrected := ext.fvOptionsCorrectNuTilda solved
      let bounded := if !c.neg_ then bound corrected 0 else corrected
      correctNutOf c ext { s with nuTilda := bounded } f

/-- The value of `fwOfG` where its divisor is not zero. -/
noncomputable def fwValue (w g : ℝ) : ℝ :=
  g * ((1 + w ^ 6) / (g ^ 6 + w ^ 6)) ^ ((1 : ℝ) / 6)

end RealClosures

section Examples

/-! ## Concrete data -/

variable {K : Type} [LinearOrderedField K]

/-- The coefficients the constructor takes when the dictionary is empty, with
`Cw1_` as the constructor computes it. -/
def defaultCoeffs : Coeffs K where
  sigmaNut := 66666 / 100000
  kappa := 41 / 100
  Cb1 := 1355 / 10000
  Cb2 := 622 / 1000
  Cw1 := (1355 / 10000) / (41 / 100) ^ 2 + (1 + 622 / 1000) / (66666 / 100000)
  Cw2 := 3 / 10
  Cw3 := 2
  Cv1 := 71 / 10
  Cv2 := 7 / 10
  Cv3 := 9 / 10
  Ct3 := 12 / 10
  Ct4 := 5 / 10
  Cn1 := 16
  Cs := 3 / 10
  neg_ := false

/-- The default coefficients with negative `nuTilda` enabled (`neg true`). -/
def negCoeffs : Coeffs K :=
  { (defaultCoeffs : Coeffs K) with neg_ := true }

/-- A cell with unit viscosity, density and wall distance, no velocity
gradient, no source options and hooks that change nothing, in which the solver
returns `solved`. -/
def plainExternal (solved : K) : External K where
  nu := 1
  alpha := 1
  rho := 1
  y := 1
  Omega := 0
  magSqrGradNuTilda := 0
  small := 1 / 10 ^ 15
  fvOptionsSource := fun _ => ⟨0, 0⟩
  relax := fun e => e
  constrain := fun e => e
  solve := fun _ => solved
  fvOptionsCorrectNuTilda := fun v => v
  fvOptionsCorrectNut := fun v => v
  turbulence := true

end Examples

section Configuration

/-! ## Coefficient dictionary, constructor and `read()` -/

variable {K : Type} [LinearOrderedField K]

/-- Modelled from the spec: the coefficient dictionary `coeffDict_`, a mapping
from names to values.  Scalar entries and the switch entry are kept apart, so
that every entry is well formed for the type it is read as. -/
structure Dict (K : Type) where
  scalars : String → Option K
  switches : String → Option Bool

/-- The dictionary with no entry. -/
def emptyDict : Dict K where
  scalars := fun _ => none
  switches := fun _ => none

/-- The dictionary `d` with the scalar entry `name` set to `v`. -/
def Dict.setScalar (d : Dict K) (name : String) (v : K) : Dict K :=
  { d with scalars := fun k => if k = name then some v else d.scalars k }

/-- Modelled from the spec: `dimensioned<scalar>::lookupOrAddToDict` returns the
entry `name` when it is present, and otherwise the default, which it writes
back into the dictionary. -/
def lookupOrAddToDict (d : Dict K) (name : String) (dflt : K) : K × Dict K :=
  match d.scalars name with
  | some v => (v, d)
  | none => (dflt, d.setScalar name dflt)

/-- Modelled from the spec: `dictionary::lookupOrDefault` returns the entry
`name` when it is present and the default otherwise; the dictionary is left as
it is. -/
def lookupOrDefault (d : Dict K) (name : String) (dflt : Bool) : Bool :=
  (d.switches name).getD dflt

/-- Modelled from the spec: `readIfPresent` on a scalar member takes the entry
`name` when it is present and keeps the prior value otherwise. -/
def readIfPresent (d : Dict K) (name : String) (prior : K) : K :=
  (d.scalars name).getD prior

/-- Modelled from the spec: `Switch::readIfPresent` takes the entry `name` when
it is present and keeps the prior value otherwise. -/
def readSwitchIfPresent (d : Dict K) (name : String) (prior : Bool) : Bool :=
  (d.switches name).getD prior

/-- The expression both the constructor and `read()` store in `Cw1_`:
`Cb1_/sqr(kappa_) + (1.0 + Cb2_)/sigmaNut_`. -/
def Cw1Of (Cb1 kappa Cb2 sigmaNut : K) : Option K :=
  (fdiv Cb1 (kappa ^ 2)).bind fun a =>
  (fdiv (1 + Cb2) sigmaNut).map fun b => a + b

/-- The coefficient part of the constructor `standardSA::standardSA`: the
member initialisers from `sigmaNut_` to `neg_`, run on the dictionary
`coeffDict_`; the result is the coefficient set and the dictionary as the
constructor leaves it. -/
def standardSA (d : Dict K) : Option (Coeffs K × Dict K) :=
  let sigmaNut := lookupOrAddToDict d "sigmaNut" (66666 / 100000)
  let kappa := lookupOrAddToDict sigmaNut.2 "kappa" (41 / 100)
  let Cb1 := lookupOrAddToDict kappa.2 "Cb1" (1355 / 10000)
  let Cb2 := lookupOrAddToDict Cb1.2 "Cb2" (622 / 1000)
  (Cw1Of Cb1.1 kappa.1 Cb2.1 sigmaNut.1).map fun Cw1 =>
    let Cw2 := lookupOrAddToDict Cb2.2 "Cw2" (3 / 10)
    let Cw3 := lookupOrAddToDict Cw2.2 "Cw3" 2
    let Cv1 := lookupOrAddToDict Cw3.2 "Cv1" (71 / 10)
    let Cv2 := lookupOrAddToDict Cv1.2 "Cv2" (7 / 10)
    let Cv3 := lookupOrAddToDict Cv2.2 "Cv3" (9 / 10)
    let Ct3 := lookupOrAddToDict Cv3.2 "Ct3" (12 / 10)
    let Ct4 := lookupOrAddToDict Ct3.2 "Ct4" (5 / 10)
    let Cn1 := lookupOrAddToDict Ct4.2 "Cn1" 16
    let Cs := lookupOrAddToDict Cn1.2 "Cs" (3 / 10)
    ({ sigmaNut := sigmaNut.1
       kappa := kappa.1
       Cb1 := Cb1.1
       Cb2 := Cb2.1
       Cw1 := Cw1
       Cw2 := Cw2.1
       Cw3 := Cw3.1
       Cv1 := Cv1.1
       Cv2 := Cv2.1
       Cv3 := Cv3.1
       Ct3 := Ct3.1
       Ct4 := Ct4.1
       Cn1 := Cn1.1
       Cs := Cs.1
       neg_ := lookupOrDefault Cs.2 "neg" false },
      Cs.2)

/-- The source's `read()`.  The base model's `read()` belongs to the library:
`base` is `none` when it fails and `some d` when it succeeds and leaves `d` as
`coeffDict()`.  The result is the returned flag and the coefficient set. -/
def read (c : Coeffs K) (base : Option (Dict K)) : Option (Bool × Coeffs K) :=
  match base with
  | some d =>
    let sigmaNut := readIfPresent d "sigmaNut" c.sigmaNut
    let kappa := readIfPresent d "kappa" c.kappa
    let Cb1 := readIfPresent d "Cb1" c.Cb1
    let Cb2 := readIfPresent d "Cb2" c.Cb2
    (Cw1Of Cb1 kappa Cb2 sigmaNut).map fun Cw1 =>
      (true,
        { sigmaNut := sigmaNut
          kappa := kappa
          Cb1 := Cb1
          Cb2 := Cb2
          Cw1 := Cw1
          Cw2 := readIfPresent d "Cw2" c.Cw2
          Cw3 := readIfPresent d "Cw3" c.Cw3
          Cv1 := readIfPresent d "Cv1" c.Cv1
          Cv2 := readIfPresent d "Cv2" c.Cv2
          Cv3 := readIfPresent d "Cv3" c.Cv3
          Ct3 := readIfPresent d "Ct3" c.Ct3
          Ct4 := readIfPresent d "Ct4" c.Ct4
          Cn1 := readIfPresent d "Cn1" c.Cn1
          Cs := readIfPresent d "Cs" c.Cs
          neg_ := readSwitchIfPresent d "neg" c.neg_ })
  | none => some (false, c)

/-- The coefficient sets a model can hold: the one the constructor builds from
some dictionary, and every one a `read()` call leaves, whether the base read
succeeded or failed. -/
inductive Reachable : Coeffs K → Prop where
  | ofConstructor (d d' : Dict K) (c : Coeffs K) (h : standardSA d = some (c, d')) :
      Reachable c
  | ofRead (c c' : Coeffs K) (base : Option (Dict K)) (b : Bool) (hc : Reachable c)
      (h : read c base = some (b, c')) : Reachable c'

end Configuration

/-! ## Basic facts about the primitives -/

section BasicFacts

variable {K : Type} [LinearOrderedField K]

theorem fdiv_of_ne (a : K) {b : K} (h : b ≠ 0) : fdiv a b = some (a / b) := by
  simp [fdiv, h]

theorem fdiv_zero_divisor (a : K) : fdiv a 0 = none := by
  simp [fdiv]

theorem fdiv_eq_some_iff {a b q : K} : fdiv a b = some q ↔ b ≠ 0 ∧ q = a / b := by
  unfold fdiv
  split_ifs with h
  · simp [h]
  · simp [h, eq_comm]

theorem pos_of_nonneg {x : K} (h : 0 ≤ x) : pos x = 1 := by
  simp [pos, h]

theorem pos_of_lt_zero {x : K} (h : x < 0) : pos x = 0 := by
  simp [pos, not_le.mpr h]

theorem neg_of_nonneg {x : K} (h : 0 ≤ x) : neg x = 0 := by
  simp [neg, not_lt.mpr h]

theorem neg_of_lt_zero {x : K} (h : x < 0) : neg x = 1 := by
  simp [neg, h]

theorem pos_add_neg (x : K) : pos x + neg x = 1 := by
  rcases le_or_lt 0 x with h | h
  · simp [pos_of_nonneg h, neg_of_nonneg h]
  · simp [pos_of_lt_zero h, neg_of_lt_zero h]

theorem bound_zero_nonneg (x : K) : 0 ≤ bound x 0 := by
  simp [bound]

theorem bound_of_le {x lower : K} (h : lower ≤ x) : bound x lower = x := by
  simp [bound, h]

end BasicFacts

/-! ## Facts about the closure functions -/

section ClosureFacts

variable {K : Type} [LinearOrderedField K]

theorem fv1_eq_some (c : Coeffs K) (x : K) (h : x ^ 3 + c.Cv1 ^ 3 ≠ 0) :
    fv1 c x = some (x ^ 3 / (x ^ 3 + c.Cv1 ^ 3)) := by
  simp [fv1, fdiv_of_ne _ h]

theorem fv1_divisor_pos (c : Coeffs K) (x : K) (hx : 0 ≤ x) (hCv1 : 0 < c.Cv1) :
    0 < x ^ 3 + c.Cv1 ^ 3 := by
  have h1 : 0 ≤ x ^ 3 := pow_nonneg hx 3
  have h2 : 0 < c.Cv1 ^ 3 := pow_pos hCv1 3
  linarith

theorem fv1_value_nonneg (c : Coeffs K) (x : K) (hx : 0 ≤ x) (hCv1 : 0 < c.Cv1) :
    0 ≤ x ^ 3 / (x ^ 3 + c.Cv1 ^ 3) :=
  div_nonneg (pow_nonneg hx 3) (fv1_divisor_pos c x hx hCv1).le

theorem fv1_value_lt_one (c : Coeffs K) (x : K) (hx : 0 ≤ x) (hCv1 : 0 < c.Cv1) :
    x ^ 3 / (x ^ 3 + c.Cv1 ^ 3) < 1 := by
  rw [div_lt_one (fv1_divisor_pos c x hx hCv1)]
  have h2 : 0 < c.Cv1 ^ 3 := pow_pos hCv1 3
  linarith

theorem chi_eq_some (nuTilda : K) {nu : K} (h : nu ≠ 0) :
    chi nuTilda nu = some (nuTilda / nu) := by
  simp [chi, fdiv_of_ne _ h]

theorem fv2_eq_some (x f : K) (h : 1 + x * f ≠ 0) :
    fv2 x f = some (1 - x / (1 + x * f)) := by
  simp [fv2, fdiv_of_ne _ h]

theorem Sbar_eq_some (c : Coeffs K) (ext : External K) (nuTilda x f : K)
    (h : 1 + x * f ≠ 0) (hk : c.kappa ≠ 0) (hy : ext.y ≠ 0) :
    Sbar c ext nuTilda x f
      = some ((1 - x / (1 + x * f)) * nuTilda / (c.kappa * ext.y) ^ 2) := by
  have h2 : (c.kappa * ext.y) ^ 2 ≠ 0 := pow_ne_zero 2 (mul_ne_zero hk hy)
  simp [Sbar, fv2_eq_some x f h, fdiv_of_ne _ h2]

/-- The divisor of the regularised quotient in `Stilda`. -/
theorem Stilda_divisor_pos (c : Coeffs K) (Omega sbar : K) (hO : 0 ≤ Omega)
    (h23 : c.Cv2 ≤ c.Cv3) (hsel : c.Cv2 * Omega + sbar < 0) :
    0 < (c.Cv3 - 2 * c.Cv2) * Omega - sbar := by
  have h : 0 ≤ (c.Cv3 - c.Cv2) * Omega := mul_nonneg (sub_nonneg.mpr h23) hO
  nlinarith

theorem StildaOf_regularized (c : Coeffs K) (Omega sbar : K) (hneg : c.neg_ = true)
    (hO : 0 ≤ Omega) (h23 : c.Cv2 ≤ c.Cv3) (hsel : c.Cv2 * Omega + sbar < 0) :
    StildaOf c Omega sbar
      = some (Omega + Omega * (c.Cv2 ^ 2 * Omega + c.Cv3 * sbar)
          / ((c.Cv3 - 2 * c.Cv2) * Omega - sbar)) := by
  have hd := (Stilda_divisor_pos c Omega sbar hO h23 hsel).ne'
  simp [StildaOf, hneg, fdiv_of_ne _ hd, neg_of_lt_zero hsel, pos_of_lt_zero hsel]

theorem StildaOf_plain (c : Coeffs K) (Omega sbar : K) (hneg : c.neg_ = true)
    (hsel : 0 ≤ c.Cv2 * Omega + sbar) (hd : (c.Cv3 - 2 * c.Cv2) * Omega - sbar ≠ 0) :
    StildaOf c Omega sbar = some (Omega + sbar) := by
  simp [StildaOf, hneg, fdiv_of_ne _ hd, neg_of_nonneg hsel, pos_of_nonneg hsel]

theorem StildaOf_fault (c : Coeffs K) (Omega sbar : K) (hneg : c.neg_ = true)
    (hd : (c.Cv3 - 2 * c.Cv2) * Omega - sbar = 0) :
    StildaOf c Omega sbar = none := by
  simp [StildaOf, hneg, hd, fdiv_zero_divisor]

theorem StildaOf_bounded (c : Coeffs K) (Omega sbar : K) (hneg : c.neg_ = false) :
    StildaOf c Omega sbar = some (max (Omega + sbar) (c.Cs * Omega)) := by
  simp [StildaOf, hneg]

theorem Stilda_eq_some_of_bounded (c : Coeffs K) (ext : External K) (nuTilda x f : K)
    (hneg : c.neg_ = false) (h : 1 + x * f ≠ 0) (hk : c.kappa ≠ 0) (hy : ext.y ≠ 0) :
    Stilda c ext nuTilda x f
      = some (max (ext.Omega + (1 - x / (1 + x * f)) * nuTilda / (c.kappa * ext.y) ^ 2)
          (c.Cs * ext.Omega)) := by
  simp [Stilda, Sbar_eq_some c ext nuTilda x f h hk hy, StildaOf_bounded c _ _ hneg]

theorem fwDivisor_pos (c : Coeffs K) (ext : External K) (st : K) (hk : c.kappa ≠ 0)
    (hy : ext.y ≠ 0) (hsmall : 0 < ext.small) : 0 < fwDivisor c ext st := by
  have h1 : 0 < max st ext.small := lt_of_lt_of_le hsmall (le_max_right _ _)
  have h2 : 0 < (c.kappa * ext.y) ^ 2 := by positivity
  exact mul_pos h1 h2

theorem fwDivisor_ge (c : Coeffs K) (ext : External K) (st : K) :
    ext.small * (c.kappa * ext.y) ^ 2 ≤ fwDivisor c ext st :=
  mul_le_mul_of_nonneg_right (le_max_right _ _) (sq_nonneg _)

theorem fwR_eq_some (c : Coeffs K) (ext : External K) (nuTilda st : K) (hk : c.kappa ≠ 0)
    (hy : ext.y ≠ 0) (hsmall : 0 < ext.small) :
    fwR c ext nuTilda st = some (min (nuTilda / fwDivisor c ext st) 10) := by
  simp [fwR, fdiv_of_ne _ (fwDivisor_pos c ext st hk hy hsmall).ne']

/-- The quartic whose sign decides the sign of `chi*fn + 1` for negative `chi`. -/
theorem quartic_pos (x : K) : 0 < x ^ 4 - x ^ 3 + 16 * x + 16 := by
  nlinarith [sq_nonneg (x ^ 2 - x / 2 - 13 / 5), sq_nonneg (x + 134 / 99), sq_nonneg x]

theorem DnuTildaEff_of_nonneg (c : Coeffs K) (nuTilda nu x : K) (hx : 0 ≤ x)
    (hd : c.Cn1 - x ^ 3 ≠ 0) (hs : c.sigmaNut ≠ 0) :
    DnuTildaEff c nuTilda nu x = some ((nuTilda + nu) / c.sigmaNut) := by
  simp [DnuTildaEff, fdiv_of_ne _ hd, fdiv_of_ne _ hs, neg_of_nonneg hx, pos_of_nonneg hx]

theorem DnuTildaEff_of_neg (c : Coeffs K) (nuTilda nu x : K) (hx : x < 0)
    (hd : c.Cn1 - x ^ 3 ≠ 0) (hs : c.sigmaNut ≠ 0) :
    DnuTildaEff c nuTilda nu x
      = some ((nuTilda * ((c.Cn1 + x ^ 3) / (c.Cn1 - x ^ 3)) + nu) / c.sigmaNut) := by
  simp [DnuTildaEff, fdiv_of_ne _ hd, fdiv_of_ne _ hs, neg_of_lt_zero hx, pos_of_lt_zero hx]

theorem DnuTildaEff_fault (c : Coeffs K) (nuTilda nu x : K) (hd : c.Cn1 - x ^ 3 = 0) :
    DnuTildaEff c nuTilda nu x = none := by
  simp [DnuTildaEff, hd, fdiv_zero_divisor]

theorem DnuTildaEff_defined (c : Coeffs K) (nuTilda nu x : K)
    (hd : c.Cn1 - x ^ 3 ≠ 0) (hs : c.sigmaNut ≠ 0) :
    ∃ d, DnuTildaEff c nuTilda nu x = some d := by
  rcases le_or_lt 0 x with hx | hx
  · exact ⟨_, DnuTildaEff_of_nonneg c nuTilda nu x hx hd hs⟩
  · exact ⟨_, DnuTildaEff_of_neg c nuTilda nu x hx hd hs⟩

end ClosureFacts

/-! ## Facts about `fw` -/

section FwFacts

theorem root6_pow (q : ℝ) (hq : 0 ≤ q) : (q ^ ((1 : ℝ) / 6)) ^ 6 = q := by
  rw [← Real.rpow_natCast, ← Real.rpow_mul hq]
  norm_num

theorem fw_divisor_pos (w g : ℝ) (hw : w ≠ 0) : 0 < g ^ 6 + w ^ 6 := by
  have h1 : 0 ≤ g ^ 6 := by positivity
  have h2 : 0 < w ^ 6 := by positivity
  linarith

theorem fwOfG_eq_some (c : Coeffs ℝ) (g : ℝ) (hw : c.Cw3 ≠ 0) :
    fwOfG c g = some (fwValue c.Cw3 g) := by
  simp [fwOfG, fwValue, fdiv_of_ne _ (fw_divisor_pos c.Cw3 g hw).ne']

theorem fwValue_pow6 (w g : ℝ) (hw : w ≠ 0) :
    fwValue w g ^ 6 = g ^ 6 * (1 + w ^ 6) / (g ^ 6 + w ^ 6) := by
  have hd := fw_divisor_pos w g hw
  have hq : 0 ≤ (1 + w ^ 6) / (g ^ 6 + w ^ 6) := by positivity
  rw [fwValue, mul_pow, root6_pow _ hq]
  ring

theorem fwValue_pow6_lt (w g : ℝ) (hw : w ≠ 0) : fwValue w g ^ 6 < 1 + w ^ 6 := by
  have hd := fw_divisor_pos w g hw
  have h2 : 0 < w ^ 6 := by positivity
  rw [fwValue_pow6 w g hw, div_lt_iff₀ hd]
  nlinarith [pow_nonneg (sq_nonneg g) 3]

theorem fwValue_abs_lt (w g : ℝ) (hw : w ≠ 0) :
    |fwValue w g| < (1 + w ^ 6) ^ ((1 : ℝ) / 6) := by
  have hA : (0 : ℝ) ≤ 1 + w ^ 6 := by positivity
  have h1 : |fwValue w g| ^ 6 < ((1 + w ^ 6) ^ ((1 : ℝ) / 6)) ^ 6 := by
    rw [root6_pow _ hA]
    have h6 : |fwValue w g| ^ 6 = fwValue w g ^ 6 := by
      rw [show (6 : ℕ) = 2 * 3 by norm_num, pow_mul, pow_mul, sq_abs]
    rw [h6]
    exact fwValue_pow6_lt w g hw
  exact lt_of_pow_lt_pow_left₀ 6 (by positivity) h1

theorem fwValue_nonneg (w g : ℝ) (hg : 0 ≤ g) : 0 ≤ fwValue w g := by
  unfold fwValue
  exact mul_nonneg hg (Real.rpow_nonneg (by positivity) _)

theorem fwValue_neg (w g : ℝ) : fwValue w (-g) = -fwValue w g := by
  unfold fwValue
  have h6 : (-g) ^ 6 = g ^ 6 := by ring
  rw [h6]
  ring

theorem fwValue_mono_nonneg (w g1 g2 : ℝ) (hw : w ≠ 0) (h1 : 0 ≤ g1) (h : g1 ≤ g2) :
    fwValue w g1 ≤ fwValue w g2 := by
  have hp : fwValue w g1 ^ 6 ≤ fwValue w g2 ^ 6 := by
    rw [fwValue_pow6 w g1 hw, fwValue_pow6 w g2 hw,
      div_le_div_iff₀ (fw_divisor_pos w g1 hw) (fw_divisor_pos w g2 hw)]
    have h6 : g1 ^ 6 ≤ g2 ^ 6 := pow_le_pow_left₀ h1 h 6
    have hprod : 0 ≤ (1 + w ^ 6) * w ^ 6 * (g2 ^ 6 - g1 ^ 6) :=
      mul_nonneg (by positivity) (sub_nonneg.mpr h6)
    nlinarith
  exact le_of_pow_le_pow_left₀ (by norm_num) (fwValue_nonneg w g2 (h1.trans h)) hp

theorem fwValue_mono (w g1 g2 : ℝ) (hw : w ≠ 0) (h : g1 ≤ g2) :
    fwValue w g1 ≤ fwValue w g2 := by
  rcases le_or_lt 0 g1 with h1 | h1
  · exact fwValue_mono_nonneg w g1 g2 hw h1 h
  · rcases le_or_lt g2 0 with h2 | h2
    · have hm := fwValue_mono_nonneg w (-g2) (-g1) hw (by linarith) (by linarith)
      rw [fwValue_neg, fwValue_neg] at hm
      linarith
    · have a := fwValue_nonneg w g2 h2.le
      have b := fwValue_nonneg w (-g1) (by linarith)
      rw [fwValue_neg] at b
      linarith

theorem fw_eq_some (c : Coeffs ℝ) (ext : External ℝ) (nuTilda st : ℝ) (hk : c.kappa ≠ 0)
    (hy : ext.y ≠ 0) (hsmall : 0 < ext.small) (hw : c.Cw3 ≠ 0) :
    fw c ext nuTilda st
      = some (fwValue c.Cw3 (fwG c (min (nuTilda / fwDivisor c ext st) 10))) := by
  simp [fw, fwR_eq_some c ext nuTilda st hk hy hsmall, fwOfG_eq_some c _ hw]

end FwFacts

/-! ## Facts about the transport equation and the controller -/

section EquationFacts

variable {K : Type} [LinearOrderedField K]

theorem LinForm.add_def (a b : LinForm K) : a + b = ⟨a.su + b.su, a.sp + b.sp⟩ := rfl

theorem nuTildaSource_eq_some (c : Coeffs K) (ext : External K) (nuTilda st ft2v fwv : K)
    (hk : c.kappa ≠ 0) (hy : ext.y ≠ 0) :
    nuTildaSource c ext nuTilda st ft2v fwv
      = some (LinForm.scale (pos nuTilda)
            (LinForm.explicitMinusSp
              (c.Cb1 * (1 - ft2v) * ext.alpha * ext.rho * st * nuTilda)
              ((c.Cw1 * ext.alpha * ext.rho * fwv * nuTilda
                  - c.Cb1 * ext.alpha * ext.rho * ft2v * nuTilda / c.kappa ^ 2) / ext.y ^ 2))
          + LinForm.scale (neg nuTilda)
            (LinForm.explicitPlusSp
              (c.Cb1 * (1 - c.Ct3) * ext.alpha * ext.rho * ext.Omega * nuTilda)
              (c.Cw1 * ext.alpha * ext.rho * nuTilda / ext.y ^ 2))
          + ext.fvOptionsSource nuTilda) := by
  have hk2 : c.kappa ^ 2 ≠ 0 := pow_ne_zero 2 hk
  have hy2 : ext.y ^ 2 ≠ 0 := pow_ne_zero 2 hy
  simp [nuTildaSource, fdiv_of_ne _ hk2, fdiv_of_ne _ hy2]

theorem nuTildaSource_of_neg (c : Coeffs K) (ext : External K) (nuTilda st ft2v fwv : K)
    (hn : nuTilda < 0) (hk : c.kappa ≠ 0) (hy : ext.y ≠ 0) :
    nuTildaSource c ext nuTilda st ft2v fwv
      = some (LinForm.explicitPlusSp
            (c.Cb1 * (1 - c.Ct3) * ext.alpha * ext.rho * ext.Omega * nuTilda)
            (c.Cw1 * ext.alpha * ext.rho * nuTilda / ext.y ^ 2)
          + ext.fvOptionsSource nuTilda) := by
  rw [nuTildaSource_eq_some c ext nuTilda st ft2v fwv hk hy]
  simp [LinForm.add_def, LinForm.scale, LinForm.explicitPlusSp, LinForm.explicitMinusSp,
    pos_of_lt_zero hn, neg_of_lt_zero hn]

end EquationFacts

section ControllerFacts

theorem nuTildaEqn_defined (c : Coeffs ℝ) (ext : External ℝ) (nuTilda x st : ℝ)
    (hd : c.Cn1 - x ^ 3 ≠ 0) (hs : c.sigmaNut ≠ 0) (hk : c.kappa ≠ 0) (hy : ext.y ≠ 0)
    (hsmall : 0 < ext.small) (hw : c.Cw3 ≠ 0) :
    ∃ e, nuTildaEqn c ext nuTilda x st = some e := by
  obtain ⟨d, hd'⟩ := DnuTildaEff_defined c nuTilda ext.nu x hd hs
  simp [nuTildaEqn, hd', fdiv_of_ne _ hs, fw_eq_some c ext nuTilda st hk hy hsmall hw,
    nuTildaSource_eq_some c ext nuTilda st _ _ hk hy]

theorem nuTildaEqn_source (c : Coeffs ℝ) (ext : External ℝ) (nuTilda x st : ℝ)
    (e : NuTildaEqn ℝ) (h : nuTildaEqn c ext nuTilda x st = some e) :
    ∃ fwv, fw c ext nuTilda st = some fwv
      ∧ nuTildaSource c ext nuTilda st (ft2 c x) fwv = some e.source := by
  simp only [nuTildaEqn, Option.bind_eq_some, Option.map_eq_some'] at h
  obtain ⟨d, -, q, -, fwv, hfw, src, hsrc, rfl⟩ := h
  exact ⟨fwv, hfw, hsrc⟩

/-- The state `correct()` leaves once the equation `e` has been assembled. -/
theorem correct_eq_some (c : Coeffs ℝ) (ext : External ℝ) (s : CellState ℝ)
    (x f st : ℝ) (e : NuTildaEqn ℝ) (hturb : ext.turbulence = true)
    (hx : chi s.nuTilda ext.nu = some x) (hf : fv1 c x = some f)
    (hst : Stilda c ext s.nuTilda x f = some st)
    (he : nuTildaEqn c ext s.nuTilda x st = some e) :
    correct c ext s
      = some (correctNutOf c ext
          { s with
            nuTilda :=
              if !c.neg_ then
                bound (ext.fvOptionsCorrectNuTilda
                  (ext.solve (ext.constrain (ext.relax e)))) 0
              else
                ext.fvOptionsCorrectNuTilda (ext.solve (ext.constrain (ext.relax e))) }
          f) := by
  simp [correct, hturb, hx, hf, hst, he]

theorem correct_eq_some_iff (c : Coeffs ℝ) (ext : External ℝ) (s s' : CellState ℝ)
    (hturb : ext.turbulence = true) :
    correct c ext s = some s' ↔
      ∃ x f st e, chi s.nuTilda ext.nu = some x ∧ fv1 c x = some f
        ∧ Stilda c ext s.nuTilda x f = some st
        ∧ nuTildaEqn c ext s.nuTilda x st = some e
        ∧ s' = correctNutOf c ext
            { s with
              nuTilda :=
                if !c.neg_ then
                  bound (ext.fvOptionsCorrectNuTilda
                    (ext.solve (ext.constrain (ext.relax e)))) 0
                else
                  ext.fvOptionsCorrectNuTilda (ext.solve (ext.constrain (ext.relax e))) }
            f := by
  constructor
  · intro h
    simp only [correct, hturb, Bool.not_true, Bool.false_eq_true, if_false,
      Option.bind_eq_some, Option.map_eq_some'] at h
    obtain ⟨x, hx, f, hf, st, hst, e, he, rfl⟩ := h
    exact ⟨x, f, st, e, hx, hf, hst, he, rfl⟩
  · rintro ⟨x, f, st, e, hx, hf, hst, he, rfl⟩
    exact correct_eq_some c ext s x f st e hturb hx hf hst he

end ControllerFacts

/-! ## Facts about the dictionary, the constructor and `read()` -/

section DictFacts

variable {K : Type}

theorem lookupOrAddToDict_fst (d : Dict K) (name : String) (v : K) :
    (lookupOrAddToDict d name v).1 = (d.scalars name).getD v := by
  unfold lookupOrAddToDict
  cases h : d.scalars name <;> simp

theorem lookupOrAddToDict_snd_self (d : Dict K) (name : String) (v : K) :
    (lookupOrAddToDict d name v).2.scalars name = some ((d.scalars name).getD v) := by
  unfold lookupOrAddToDict
  cases h : d.scalars name <;> simp [Dict.setScalar, h]

theorem lookupOrAddToDict_snd_other (d : Dict K) (name k : String) (v : K)
    (hk : k ≠ name) : (lookupOrAddToDict d name v).2.scalars k = d.scalars k := by
  unfold lookupOrAddToDict
  cases h : d.scalars name <;> simp [Dict.setScalar, hk]

theorem lookupOrAddToDict_switches (d : Dict K) (name : String) (v : K) :
    (lookupOrAddToDict d name v).2.switches = d.switches := by
  unfold lookupOrAddToDict
  cases h : d.scalars name <;> simp [Dict.setScalar]

theorem readIfPresent_of_some (d : Dict K) (name : String) (v : K)
    (h : d.scalars name = some v) : readIfPresent d name v = v := by
  simp [readIfPresent, h]

end DictFacts

section ConfigurationFacts

variable {K : Type} [LinearOrderedField K]

theorem Cw1Of_eq_some (Cb1 kappa Cb2 sigmaNut : K) (hk : kappa ≠ 0) (hs : sigmaNut ≠ 0) :
    Cw1Of Cb1 kappa Cb2 sigmaNut = some (Cb1 / kappa ^ 2 + (1 + Cb2) / sigmaNut) := by
  simp [Cw1Of, fdiv_of_ne _ (pow_ne_zero 2 hk), fdiv_of_ne _ hs]

theorem Cw1Of_eq_some_iff (Cb1 kappa Cb2 sigmaNut w : K) :
    Cw1Of Cb1 kappa Cb2 sigmaNut = some w
      ↔ kappa ≠ 0 ∧ sigmaNut ≠ 0 ∧ w = Cb1 / kappa ^ 2 + (1 + Cb2) / sigmaNut := by
  constructor
  · intro h
    simp only [Cw1Of, Option.bind_eq_some, Option.map_eq_some', fdiv_eq_some_iff] at h
    obtain ⟨a, ⟨hk, rfl⟩, b, ⟨hs, rfl⟩, rfl⟩ := h
    exact ⟨fun h0 => hk (by simp [h0]), hs, rfl⟩
  · rintro ⟨hk, hs, rfl⟩
    exact Cw1Of_eq_some Cb1 kappa Cb2 sigmaNut hk hs

/-- Every coefficient set the constructor builds holds the derived `Cw1`. -/
theorem standardSA_Cw1 (d d' : Dict K) (c : Coeffs K) (h : standardSA d = some (c, d')) :
    Cw1Of c.Cb1 c.kappa c.Cb2 c.sigmaNut = some c.Cw1 := by
  simp only [standardSA, Option.map_eq_some'] at h
  obtain ⟨w, hw, hc⟩ := h
  have hc1 := (Prod.mk.inj hc).1
  rw [← hc1]
  exact hw

/-- Every coefficient set a successful `read()` leaves holds the derived `Cw1`. -/
theorem read_Cw1 (c c' : Coeffs K) (d : Dict K) (b : Bool)
    (h : read c (some d) = some (b, c')) :
    Cw1Of c'.Cb1 c'.kappa c'.Cb2 c'.sigmaNut = some c'.Cw1 := by
  simp only [read, Option.map_eq_some'] at h
  obtain ⟨w, hw, hc⟩ := h
  have hc2 := (Prod.mk.inj hc).2
  rw [← hc2]
  exact hw

theorem read_none (c : Coeffs K) : read c none = some (false, c) := rfl

theorem reachable_Cw1 (c : Coeffs K) (h : Reachable c) :
    Cw1Of c.Cb1 c.kappa c.Cb2 c.sigmaNut = some c.Cw1 := by
  induction h with
  | ofConstructor d d' c h => exact standardSA_Cw1 d d' c h
  | ofRead c c' base b _ h ih =>
    cases base with
    | none =>
      rw [read_none] at h
      have hc := (Prod.mk.inj (Option.some.inj h)).2
      rw [← hc]
      exact ih
    | some d => exact read_Cw1 c c' d b h

end ConfigurationFacts

/-! ## Sign of the fields after `correct()` -/

section SignConsistency

/-- C1, as the code has it: after one `correct()` call with turbulence enabled
and `neg_` false, `nuTilda >= 0` in the cell for every prior state and every
solver output: every state the call returns has it, and the call returns
whenever its closures have values.  When moreover the prior `nuTilda` is not
negative, no divisor of the step is zero and the source correction of `nut`
keeps non-negative values non-negative, the call returns a state with
`nuTilda >= 0` and `nut >= 0`. -/
theorem correct_sign_consistency (c : Coeffs ℝ) (ext : External ℝ) (s : CellState ℝ)
    (hturb : ext.turbulence = true) (hneg : c.neg_ = false) :
    (∀ s', correct c ext s = some s' → 0 ≤ s'.nuTilda)
      ∧ (∀ x f st e, chi s.nuTilda ext.nu = some x → fv1 c x = some f →
          Stilda c ext s.nuTilda x f = some st →
          nuTildaEqn c ext s.nuTilda x st = some e →
          ∃ s', correct c ext s = some s' ∧ 0 ≤ s'.nuTilda)
      ∧ (0 < ext.nu → 0 < c.Cv1 → 0 ≤ s.nuTilda → c.kappa ≠ 0 → ext.y ≠ 0 →
          c.sigmaNut ≠ 0 → c.Cw3 ≠ 0 → 0 < ext.small →
          c.Cn1 - (s.nuTilda / ext.nu) ^ 3 ≠ 0 →
          (∀ v, 0 ≤ v → 0 ≤ ext.fvOptionsCorrectNut v) →
          ∃ s', correct c ext s = some s' ∧ 0 ≤ s'.nuTilda ∧ 0 ≤ s'.nut) := by
  refine ⟨?_, ?_, ?_⟩
  · intro s' h
    obtain ⟨x, f, st, e, -, -, -, -, rfl⟩ := (correct_eq_some_iff c ext s s' hturb).mp h
    simp [correctNutOf, hneg, bound_zero_nonneg]
  · intro x f st e hx hf hst he
    refine ⟨_, correct_eq_some c ext s x f st e hturb hx hf hst he, ?_⟩
    simp [correctNutOf, hneg, bound_zero_nonneg]
  · intro hnu hCv1 hprior hk hy hs hw hsmall hd hhook
    have hx0 : 0 ≤ s.nuTilda / ext.nu := div_nonneg hprior hnu.le
    have hf0 := fv1_value_nonneg c (s.nuTilda / ext.nu) hx0 hCv1
    have hx := chi_eq_some s.nuTilda hnu.ne'
    have hf := fv1_eq_some c (s.nuTilda / ext.nu) (fv1_divisor_pos c _ hx0 hCv1).ne'
    have h1 : 1 + s.nuTilda / ext.nu
        * ((s.nuTilda / ext.nu) ^ 3 / ((s.nuTilda / ext.nu) ^ 3 + c.Cv1 ^ 3)) ≠ 0 := by
      have := mul_nonneg hx0 hf0
      linarith
    have hst := Stilda_eq_some_of_bounded c ext s.nuTilda _ _ hneg h1 hk hy
    obtain ⟨e, he⟩ := nuTildaEqn_defined c ext s.nuTilda (s.nuTilda / ext.nu) _ hd hs hk hy
      hsmall hw
    refine ⟨_, correct_eq_some c ext s _ _ _ e hturb hx hf hst he, ?_, ?_⟩
    · simp [correctNutOf, hneg, bound_zero_nonneg]
    · simp only [correctNutOf, hneg, Bool.not_false, if_true, Bool.false_eq_true, if_false]
      exact hhook _ (mul_nonneg (bound_zero_nonneg _) hf0)

/-- Witness of `correct_sign_consistency`: the default coefficients in a plain
cell whose solver returns `-3`, once with the negative prior `nuTilda = -1` and
once with prior `nuTilda = 1`. -/
theorem correct_sign_consistency_witness :
    (∃ s', correct (defaultCoeffs : Coeffs ℝ) (plainExternal (-3)) ⟨-1, 0⟩ = some s'
        ∧ 0 ≤ s'.nuTilda)
      ∧ ∃ s', correct (defaultCoeffs : Coeffs ℝ) (plainExternal (-3)) ⟨1, 0⟩ = some s'
          ∧ 0 ≤ s'.nuTilda ∧ 0 ≤ s'.nut := by
  constructor
  · have hx : chi (-1 : ℝ) (plainExternal (-3 : ℝ)).nu = some (-1) := by
      norm_num [chi, fdiv, plainExternal]
    have hf : fv1 (defaultCoeffs : Coeffs ℝ) (-1) = some (-1000 / 356911) := by
      norm_num [fv1, fdiv, defaultCoeffs]
    have hst := Stilda_eq_some_of_bounded (defaultCoeffs : Coeffs ℝ) (plainExternal (-3))
      (-1) (-1) (-1000 / 356911) rfl (by norm_num) (by norm_num [defaultCoeffs])
      (by norm_num [plainExternal])
    obtain ⟨e, he⟩ := nuTildaEqn_defined (defaultCoeffs : Coeffs ℝ) (plainExternal (-3))
      (-1) (-1) _ (by norm_num [defaultCoeffs]) (by norm_num [defaultCoeffs])
      (by norm_num [defaultCoeffs]) (by norm_num [plainExternal])
      (by norm_num [plainExternal]) (by norm_num [defaultCoeffs])
    exact (correct_sign_consistency (defaultCoeffs : Coeffs ℝ) (plainExternal (-3))
      ⟨-1, 0⟩ rfl rfl).2.1 _ _ _ e hx hf hst he
  · exact (correct_sign_consistency (defaultCoeffs : Coeffs ℝ) (plainExternal (-3))
      ⟨1, 0⟩ rfl rfl).2.2
      (by norm_num [plainExternal]) (by norm_num [defaultCoeffs])
      (by norm_num) (by norm_num [defaultCoeffs]) (by norm_num [plainExternal])
      (by norm_num [defaultCoeffs]) (by norm_num [defaultCoeffs])
      (by norm_num [plainExternal]) (by norm_num [defaultCoeffs, plainExternal])
      (by intro v hv; simpa [plainExternal] using hv)

/-- C1 as stated fails: with the default coefficients (`neg_` false,
`Cv1 = 7.1`), `nu = 1`, prior `nuTilda = -1` and the solver returning `1`,
`correct()` leaves `nuTilda = 1` and the negative `nut = -1000/356911`. -/
theorem correct_sign_counterexample :
    (defaultCoeffs : Coeffs ℝ).neg_ = false ∧ (plainExternal (1 : ℝ)).turbulence = true
      ∧ 0 < (plainExternal (1 : ℝ)).nu ∧ 0 < (defaultCoeffs : Coeffs ℝ).Cv1
      ∧ correct (defaultCoeffs : Coeffs ℝ) (plainExternal 1) ⟨-1, 0⟩
          = some ⟨1, -1000 / 356911⟩
      ∧ (-1000 / 356911 : ℝ) < 0 := by
  refine ⟨rfl, rfl, by norm_num [plainExternal], by norm_num [defaultCoeffs], ?_,
    by norm_num⟩
  have hx : chi (-1 : ℝ) (plainExternal (1 : ℝ)).nu = some (-1) := by
    norm_num [chi, fdiv, plainExternal]
  have hf : fv1 (defaultCoeffs : Coeffs ℝ) (-1) = some (-1000 / 356911) := by
    norm_num [fv1, fdiv, defaultCoeffs]
  have hst := Stilda_eq_some_of_bounded (defaultCoeffs : Coeffs ℝ) (plainExternal 1) (-1)
    (-1) (-1000 / 356911) rfl (by norm_num) (by norm_num [defaultCoeffs])
    (by norm_num [plainExternal])
  obtain ⟨e, he⟩ := nuTildaEqn_defined (defaultCoeffs : Coeffs ℝ) (plainExternal 1) (-1)
    (-1) _ (by norm_num [defaultCoeffs]) (by norm_num [defaultCoeffs])
    (by norm_num [defaultCoeffs]) (by norm_num [plainExternal])
    (by norm_num [plainExternal]) (by norm_num [defaultCoeffs])
  rw [correct_eq_some _ _ ⟨-1, 0⟩ _ _ _ e rfl hx hf hst he]
  simp [correctNutOf, defaultCoeffs, plainExternal, bound]

end SignConsistency

/-! ## The eddy viscosity written by `correctNut` and `correct()` -/

section EddyViscosity

variable {K : Type} [LinearOrderedField K]

/-- C2, as the code has it: `correctNut(fv1)` leaves `nuTilda` alone, sets `nut`
to `nuTilda*fv1` and clips it to non-negative exactly when `neg_` is true; when
`neg_` is false the product is left unclipped.  The source correction of `nut`
comes last. -/
theorem correctNutOf_clips_when_neg (c : Coeffs K) (ext : External K) (s : CellState K)
    (f : K) :
    (correctNutOf c ext s f).nuTilda = s.nuTilda
      ∧ (correctNutOf c ext s f).nut
          = ext.fvOptionsCorrectNut
              (if c.neg_ = true then max (s.nuTilda * f) 0 else s.nuTilda * f) := by
  cases hneg : c.neg_ <;> simp [correctNutOf, bound, hneg]

/-- C2 as stated fails in both modes: for `nuTilda = -1` and `fv1 = 1`, with
`neg_` false `nut` is the unclipped `-1`, and with `neg_` true `nut` is clipped
to `0` although the product is `-1`. -/
theorem correctNutOf_clipping_counterexample :
    (correctNutOf (defaultCoeffs : Coeffs ℚ) (plainExternal 0) ⟨-1, 0⟩ 1).nut = -1
      ∧ (correctNutOf (negCoeffs : Coeffs ℚ) (plainExternal 0) ⟨-1, 0⟩ 1).nut = 0 := by
  constructor <;> simp [correctNutOf, bound, defaultCoeffs, negCoeffs, plainExternal]

/-- C5: `correctNut()` run on its own result gives that result again, and its
result does not depend on the `nut` it started from. -/
theorem correctNut_idempotent (c : Coeffs K) (ext : External K) (s : CellState K) :
    (correctNut c ext s).bind (correctNut c ext) = correctNut c ext s
      ∧ ∀ n, correctNut c ext { s with nut := n } = correctNut c ext s := by
  constructor
  · unfold correctNut
    cases hx : chi s.nuTilda ext.nu with
    | none => simp
    | some x =>
      cases hf : fv1 c x with
      | none => simp [hf]
      | some f => simp [correctNutOf, hx, hf]
  · intro n
    simp [correctNut, correctNutOf]

end EddyViscosity

section StaleFv1

/-- C3, as the code has it: when the closures of the step evaluate to `x`
(`chi`), `f` (`fv1`), `st` (`Stilda`) and the equation `e`, `correct()` returns
a state whose `nuTilda` is the solved, source-corrected and (for `neg_` false)
clipped value, and whose `nut` is that new `nuTilda` times `f`, the `fv1` of
the `nuTilda` from before the solve, then clipped when `neg_` is true and
passed to the source correction. -/
theorem correct_nut_from_presolve_fv1 (c : Coeffs ℝ) (ext : External ℝ)
    (s : CellState ℝ) (x f st : ℝ) (e : NuTildaEqn ℝ) (hturb : ext.turbulence = true)
    (hx : chi s.nuTilda ext.nu = some x) (hf : fv1 c x = some f)
    (hst : Stilda c ext s.nuTilda x f = some st)
    (he : nuTildaEqn c ext s.nuTilda x st = some e) :
    ∃ s', correct c ext s = some s'
      ∧ s'.nuTilda
          = (if c.neg_ = true then
              ext.fvOptionsCorrectNuTilda (ext.solve (ext.constrain (ext.relax e)))
            else
              max (ext.fvOptionsCorrectNuTilda (ext.solve (ext.constrain (ext.relax e)))) 0)
      ∧ s'.nut
          = ext.fvOptionsCorrectNut
              (if c.neg_ = true then max (s'.nuTilda * f) 0 else s'.nuTilda * f) := by
  refine ⟨_, correct_eq_some c ext s x f st e hturb hx hf hst he, ?_, ?_⟩
  · cases hneg : c.neg_ <;> simp [correctNutOf, bound, hneg]
  · cases hneg : c.neg_ <;> simp [correctNutOf, bound, hneg]

/-- Witness of `correct_nut_from_presolve_fv1`: the default coefficients in a
plain cell with prior `nuTilda = 1`, the solver returning `2`. -/
theorem correct_nut_from_presolve_fv1_witness :
    ∃ s', correct (defaultCoeffs : Coeffs ℝ) (plainExternal 2) ⟨1, 0⟩ = some s'
      ∧ s'.nuTilda = 2 ∧ s'.nut = 2 * (1000 / 358911) := by
  have hx : chi (1 : ℝ) (plainExternal (2 : ℝ)).nu = some 1 := by
    norm_num [chi, fdiv, plainExternal]
  have hf : fv1 (defaultCoeffs : Coeffs ℝ) 1 = some (1000 / 358911) := by
    norm_num [fv1, fdiv, defaultCoeffs]
  have hst := Stilda_eq_some_of_bounded (defaultCoeffs : Coeffs ℝ) (plainExternal 2) 1
    1 (1000 / 358911) rfl (by norm_num) (by norm_num [defaultCoeffs])
    (by norm_num [plainExternal])
  obtain ⟨e, he⟩ := nuTildaEqn_defined (defaultCoeffs : Coeffs ℝ) (plainExternal 2) 1
    1 _ (by norm_num [defaultCoeffs]) (by norm_num [defaultCoeffs])
    (by norm_num [defaultCoeffs]) (by norm_num [plainExternal])
    (by norm_num [plainExternal]) (by norm_num [defaultCoeffs])
  obtain ⟨s', h, h1, h2⟩ := correct_nut_from_presolve_fv1 (defaultCoeffs : Coeffs ℝ)
    (plainExternal 2) ⟨1, 0⟩ 1 (1000 / 358911) _ e rfl hx hf hst he
  refine ⟨s', h, ?_, ?_⟩
  · simpa [defaultCoeffs, plainExternal] using h1
  · have h1' : s'.nuTilda = 2 := by simpa [defaultCoeffs, plainExternal] using h1
    rw [h2, h1']
    simp [defaultCoeffs, plainExternal]

/-- C3 as stated fails: with the default coefficients, `nu = 1`, prior
`nuTilda = 1` and the solver returning `2`, `correct()` writes
`nut = 2 * fv1(1) = 2000/358911`, while `fv1` of the updated field is
`fv1(2) = 8000/365911` and the claimed value would be `16000/365911`. -/
theorem correct_nut_recomputed_counterexample :
    correct (defaultCoeffs : Coeffs ℝ) (plainExternal 2) ⟨1, 0⟩
        = some ⟨2, 2000 / 358911⟩
      ∧ chi (2 : ℝ) (plainExternal (2 : ℝ)).nu = some 2
      ∧ fv1 (defaultCoeffs : Coeffs ℝ) 2 = some (8000 / 365911)
      ∧ (2000 / 358911 : ℝ) ≠ 2 * (8000 / 365911) := by
  refine ⟨?_, by norm_num [chi, fdiv, plainExternal],
    by norm_num [fv1, fdiv, defaultCoeffs], by norm_num⟩
  have hx : chi (1 : ℝ) (plainExternal (2 : ℝ)).nu = some 1 := by
    norm_num [chi, fdiv, plainExternal]
  have hf : fv1 (defaultCoeffs : Coeffs ℝ) 1 = some (1000 / 358911) := by
    norm_num [fv1, fdiv, defaultCoeffs]
  have hst := Stilda_eq_some_of_bounded (defaultCoeffs : Coeffs ℝ) (plainExternal 2) 1
    1 (1000 / 358911) rfl (by norm_num) (by norm_num [defaultCoeffs])
    (by norm_num [plainExternal])
  obtain ⟨e, he⟩ := nuTildaEqn_defined (defaultCoeffs : Coeffs ℝ) (plainExternal 2) 1
    1 _ (by norm_num [defaultCoeffs]) (by norm_num [defaultCoeffs])
    (by norm_num [defaultCoeffs]) (by norm_num [plainExternal])
    (by norm_num [plainExternal]) (by norm_num [defaultCoeffs])
  rw [correct_eq_some _ _ ⟨1, 0⟩ _ _ _ e rfl hx hf hst he]
  simp [correctNutOf, defaultCoeffs, plainExternal, bound]
  norm_num

end StaleFv1

/-! ## Branch selection in the transport equation -/

section BranchSelection

/-- C4: in a cell with `nuTilda < 0` (`kappa` and the wall distance not zero, so
that the quotients by `sqr(kappa_)` and `sqr(y_)` exist), the indicator of the
positive branch is `0` and that of the negative branch is `1`; for all values
of `Stilda`, `ft2` and `fw` the right-hand side is the explicit term
`Cb1*(1-Ct3)*alpha*rho*Omega*nuTilda` with the sink coefficient
`Cw1*alpha*rho*nuTilda/y^2` on the unknown, plus the source options; and this
is the right-hand side of every equation `correct()` assembles in the cell. -/
theorem nuTildaSource_negative_branch (c : Coeffs ℝ) (ext : External ℝ) (nuTilda : ℝ)
    (hn : nuTilda < 0) (hk : c.kappa ≠ 0) (hy : ext.y ≠ 0) :
    pos nuTilda = 0 ∧ neg nuTilda = 1
      ∧ (∀ st ft2v fwv : ℝ,
          nuTildaSource c ext nuTilda st ft2v fwv
            = some ⟨c.Cb1 * (1 - c.Ct3) * ext.alpha * ext.rho * ext.Omega * nuTilda
                  + (ext.fvOptionsSource nuTilda).su,
                c.Cw1 * ext.alpha * ext.rho * nuTilda / ext.y ^ 2
                  + (ext.fvOptionsSource nuTilda).sp⟩)
      ∧ ∀ x st e, nuTildaEqn c ext nuTilda x st = some e →
          e.source
            = ⟨c.Cb1 * (1 - c.Ct3) * ext.alpha * ext.rho * ext.Omega * nuTilda
                  + (ext.fvOptionsSource nuTilda).su,
                c.Cw1 * ext.alpha * ext.rho * nuTilda / ext.y ^ 2
                  + (ext.fvOptionsSource nuTilda).sp⟩ := by
  have hsrc : ∀ st ft2v fwv : ℝ,
      nuTildaSource c ext nuTilda st ft2v fwv
        = some ⟨c.Cb1 * (1 - c.Ct3) * ext.alpha * ext.rho * ext.Omega * nuTilda
              + (ext.fvOptionsSource nuTilda).su,
            c.Cw1 * ext.alpha * ext.rho * nuTilda / ext.y ^ 2
              + (ext.fvOptionsSource nuTilda).sp⟩ := by
    intro st ft2v fwv
    rw [nuTildaSource_of_neg c ext nuTilda st ft2v fwv hn hk hy]
    simp [LinForm.add_def, LinForm.explicitPlusSp]
  refine ⟨pos_of_lt_zero hn, neg_of_lt_zero hn, hsrc, ?_⟩
  intro x st e he
  obtain ⟨fwv, -, h⟩ := nuTildaEqn_source c ext nuTilda x st e he
  rw [hsrc] at h
  exact (Option.some.inj h).symm

/-- Witness of `nuTildaSource_negative_branch`: the default coefficients in a
plain cell with `nuTilda = -1`. -/
theorem nuTildaSource_negative_branch_witness :
    pos (-1 : ℝ) = 0 ∧ neg (-1 : ℝ) = 1
      ∧ ∀ st ft2v fwv : ℝ,
          nuTildaSource (defaultCoeffs : Coeffs ℝ) (plainExternal 0) (-1) st ft2v fwv
            = some ⟨0, -(defaultCoeffs : Coeffs ℝ).Cw1⟩ := by
  obtain ⟨h1, h2, h3, -⟩ := nuTildaSource_negative_branch (defaultCoeffs : Coeffs ℝ)
    (plainExternal 0) (-1) (by norm_num) (by norm_num [defaultCoeffs])
    (by norm_num [plainExternal])
  refine ⟨h1, h2, fun st ft2v fwv => ?_⟩
  rw [h3]
  simp [plainExternal]

end BranchSelection

/-! ## Ranges of the closure functions -/

section Ranges

variable {K : Type} [LinearOrderedField K]

/-- C6: for `chi >= 0` and `Cv1 > 0`, `fv1(chi)` has the value
`chi^3/(chi^3 + Cv1^3)`, which lies in `[0, 1)`. -/
theorem fv1_range (c : Coeffs K) (x : K) (hx : 0 ≤ x) (hCv1 : 0 < c.Cv1) :
    ∃ v, fv1 c x = some v ∧ v = x ^ 3 / (x ^ 3 + c.Cv1 ^ 3) ∧ 0 ≤ v ∧ v < 1 :=
  ⟨_, fv1_eq_some c x (fv1_divisor_pos c x hx hCv1).ne', rfl,
    fv1_value_nonneg c x hx hCv1, fv1_value_lt_one c x hx hCv1⟩

/-- Witness of `fv1_range`: `chi = 1` with the default `Cv1 = 7.1`. -/
theorem fv1_range_witness :
    ∃ v, fv1 (defaultCoeffs : Coeffs ℚ) 1 = some v
      ∧ v = (1 : ℚ) ^ 3 / (1 ^ 3 + (defaultCoeffs : Coeffs ℚ).Cv1 ^ 3) ∧ 0 ≤ v ∧ v < 1 :=
  fv1_range defaultCoeffs 1 (by norm_num) (by norm_num [defaultCoeffs])

/-- C9: with `kappa != 0`, `y > 0` and a positive `small`, the divisor
`max(Stilda, small)*(kappa*y)^2` of `r` is strictly positive and at least
`small*(kappa*y)^2`, for every `Stilda`; `r` has the value
`min(nuTilda/divisor, 10)`, which is at most `10`. -/
theorem fwR_guarded (c : Coeffs K) (ext : External K) (nuTilda st : K)
    (hk : c.kappa ≠ 0) (hy : 0 < ext.y) (hsmall : 0 < ext.small) :
    0 < fwDivisor c ext st
      ∧ ext.small * (c.kappa * ext.y) ^ 2 ≤ fwDivisor c ext st
      ∧ ∃ r, fwR c ext nuTilda st = some r
          ∧ r = min (nuTilda / fwDivisor c ext st) 10 ∧ r ≤ 10 :=
  ⟨fwDivisor_pos c ext st hk hy.ne' hsmall, fwDivisor_ge c ext st, _,
    fwR_eq_some c ext nuTilda st hk hy.ne' hsmall, rfl, min_le_right _ _⟩

/-- Witness of `fwR_guarded`: the default coefficients in a plain cell with
`nuTilda = 1` and `Stilda = -2`. -/
theorem fwR_guarded_witness :
    0 < fwDivisor (defaultCoeffs : Coeffs ℚ) (plainExternal 0) (-2)
      ∧ (plainExternal (0 : ℚ)).small
            * ((defaultCoeffs : Coeffs ℚ).kappa * (plainExternal (0 : ℚ)).y) ^ 2
          ≤ fwDivisor (defaultCoeffs : Coeffs ℚ) (plainExternal 0) (-2)
      ∧ ∃ r, fwR (defaultCoeffs : Coeffs ℚ) (plainExternal 0) 1 (-2) = some r
          ∧ r = min (1 / fwDivisor (defaultCoeffs : Coeffs ℚ) (plainExternal 0) (-2)) 10
          ∧ r ≤ 10 :=
  fwR_guarded defaultCoeffs (plainExternal 0) 1 (-2) (by norm_num [defaultCoeffs])
    (by norm_num [plainExternal]) (by norm_num [plainExternal])

end Ranges

section FwSaturation

/-- C10: for `Cw3 != 0` the last expression of `fw` has a value `v` for every
`g`, with `v^6 = g^6*(1 + Cw3^6)/(g^6 + Cw3^6) < 1 + Cw3^6` and
`|v| < (1 + Cw3^6)^(1/6)`; it does not decrease as `g` grows; and every value
`fw(Stilda)` returns in a cell obeys the same bound. -/
theorem fwOfG_monotone_saturation (c : Coeffs ℝ) (hw : c.Cw3 ≠ 0) :
    (∀ g, ∃ v, fwOfG c g = some v
        ∧ v = g * ((1 + c.Cw3 ^ 6) / (g ^ 6 + c.Cw3 ^ 6)) ^ ((1 : ℝ) / 6)
        ∧ v ^ 6 = g ^ 6 * (1 + c.Cw3 ^ 6) / (g ^ 6 + c.Cw3 ^ 6)
        ∧ v ^ 6 < 1 + c.Cw3 ^ 6
        ∧ |v| < (1 + c.Cw3 ^ 6) ^ ((1 : ℝ) / 6))
      ∧ (∀ g1 g2, g1 ≤ g2 →
          ∃ v1 v2, fwOfG c g1 = some v1 ∧ fwOfG c g2 = some v2 ∧ v1 ≤ v2)
      ∧ ∀ (ext : External ℝ) (nuTilda st v : ℝ), fw c ext nuTilda st = some v →
          |v| < (1 + c.Cw3 ^ 6) ^ ((1 : ℝ) / 6) := by
  refine ⟨fun g => ?_, fun g1 g2 h => ?_, fun ext nuTilda st v h => ?_⟩
  · exact ⟨_, fwOfG_eq_some c g hw, rfl, fwValue_pow6 c.Cw3 g hw,
      fwValue_pow6_lt c.Cw3 g hw, fwValue_abs_lt c.Cw3 g hw⟩
  · exact ⟨_, _, fwOfG_eq_some c g1 hw, fwOfG_eq_some c g2 hw,
      fwValue_mono c.Cw3 g1 g2 hw h⟩
  · simp only [fw, Option.bind_eq_some] at h
    obtain ⟨r, -, hv⟩ := h
    rw [fwOfG_eq_some c _ hw] at hv
    rw [← Option.some.inj hv]
    exact fwValue_abs_lt c.Cw3 _ hw

/-- Witness of `fwOfG_monotone_saturation`: the default `Cw3 = 2`, at `g = 0`
and `g = 1`. -/
theorem fwOfG_monotone_saturation_witness :
    ∃ v1 v2, fwOfG (defaultCoeffs : Coeffs ℝ) 0 = some v1
      ∧ fwOfG (defaultCoeffs : Coeffs ℝ) 1 = some v2 ∧ v1 ≤ v2 :=
  (fwOfG_monotone_saturation (defaultCoeffs : Coeffs ℝ)
    (by norm_num [defaultCoeffs])).2.1 0 1 (by norm_num)

end FwSaturation

/-! ## Quotients evaluated under a zero indicator -/

section MaskedQuotients

variable {K : Type} [LinearOrderedField K]

/-- Where `chi^3` differs from `Cn1 = 16`, the effective diffusivity of a cell
with `nuTilda = chi*nu`, `nu > 0` and `sigmaNut > 0` has a value, and the value
is strictly positive. -/
theorem DnuTildaEff_pos (c : Coeffs K) (nu x : K) (hCn1 : c.Cn1 = 16) (hnu : 0 < nu)
    (hs : 0 < c.sigmaNut) (hd : x ^ 3 ≠ 16) :
    ∃ d, DnuTildaEff c (x * nu) nu x = some d ∧ 0 < d := by
  have hd' : c.Cn1 - x ^ 3 ≠ 0 := by
    rw [hCn1]
    exact fun h => hd (by linarith)
  rcases le_or_lt 0 x with hx | hx
  · refine ⟨_, DnuTildaEff_of_nonneg c (x * nu) nu x hx hd' hs.ne', ?_⟩
    have : 0 ≤ x * nu := mul_nonneg hx hnu.le
    exact div_pos (by linarith) hs
  · refine ⟨_, DnuTildaEff_of_neg c (x * nu) nu x hx hd' hs.ne', ?_⟩
    have hx3 : x ^ 3 < 0 := by
      have h := mul_pos_of_neg_of_neg hx hx
      have : x ^ 3 = x * x * x := by ring
      rw [this]
      exact mul_neg_of_pos_of_neg h hx
    have hden : 0 < c.Cn1 - x ^ 3 := by rw [hCn1]; linarith
    have hval : x * nu * ((c.Cn1 + x ^ 3) / (c.Cn1 - x ^ 3)) + nu
        = nu * ((x ^ 4 - x ^ 3 + 16 * x + 16) / (c.Cn1 - x ^ 3)) := by
      rw [hCn1] at hden ⊢
      field_simp
      ring
    rw [hval]
    exact div_pos (mul_pos hnu (div_pos (quartic_pos x) hden)) hs

end MaskedQuotients

section MaskedQuotientFaults

/-- C7 at its failing input: for the real `chi` with `chi^3 = 16 = Cn1` (a
non-negative `chi`, with `nu = 1`, `nuTilda = chi*nu` and the default
`sigmaNut`), `DnuTildaEff` divides `neg(chi)*(Cn1 + chi^3) = 0` by
`Cn1 - chi^3 = 0` and has no value. -/
theorem DnuTildaEff_fault_at_cube_root :
    (0 : ℝ) ≤ (16 : ℝ) ^ ((1 : ℝ) / 3)
      ∧ ((16 : ℝ) ^ ((1 : ℝ) / 3)) ^ 3 = (defaultCoeffs : Coeffs ℝ).Cn1
      ∧ (0 : ℝ) < (defaultCoeffs : Coeffs ℝ).sigmaNut
      ∧ DnuTildaEff (defaultCoeffs : Coeffs ℝ) ((16 : ℝ) ^ ((1 : ℝ) / 3) * 1) 1
          ((16 : ℝ) ^ ((1 : ℝ) / 3)) = none := by
  have hcube : ((16 : ℝ) ^ ((1 : ℝ) / 3)) ^ 3 = 16 := by
    rw [← Real.rpow_natCast, ← Real.rpow_mul (by norm_num)]
    norm_num
  refine ⟨by positivity, by simpa [defaultCoeffs] using hcube,
    by norm_num [defaultCoeffs], ?_⟩
  apply DnuTildaEff_fault
  rw [hcube]
  norm_num [defaultCoeffs]

/-- C8 at its failing input: with `neg_` true and the default `Cv2 = 0.7`,
`Cv3 = 0.9`, a cell with `Omega = 0` and `Sbar = 0` is on the branch
`Cv2*Omega + Sbar >= 0`, yet the quotient of the other branch is evaluated
with the divisor `(Cv3 - 2*Cv2)*Omega - Sbar = 0`: `Stilda` has no value there,
be it from `Omega` and `Sbar` or from `nuTilda = 0`, `chi = 0`, `fv1 = 0`. -/
theorem Stilda_fault_at_rest :
    (0 : ℚ) ≤ (negCoeffs : Coeffs ℚ).Cv2 * 0 + 0
      ∧ ((negCoeffs : Coeffs ℚ).Cv3 - 2 * (negCoeffs : Coeffs ℚ).Cv2) * 0 - 0 = 0
      ∧ StildaOf (negCoeffs : Coeffs ℚ) 0 0 = none
      ∧ Sbar (negCoeffs : Coeffs ℚ) (plainExternal 0) 0 0 0 = some 0
      ∧ Stilda (negCoeffs : Coeffs ℚ) (plainExternal 0) 0 0 0 = none := by
  have hS : Sbar (negCoeffs : Coeffs ℚ) (plainExternal 0) 0 0 0 = some 0 := by
    rw [Sbar_eq_some _ _ _ _ _ (by norm_num) (by norm_num [negCoeffs, defaultCoeffs])
      (by norm_num [plainExternal])]
    simp
  have hF : StildaOf (negCoeffs : Coeffs ℚ) 0 0 = none :=
    StildaOf_fault _ _ _ rfl (by norm_num)
  refine ⟨by norm_num, by norm_num, hF, hS, ?_⟩
  rw [Stilda, hS]
  simpa [plainExternal] using hF

end MaskedQuotientFaults

/-! ## The intermediate `g` of `fw` -/

section FwIntermediate

variable {K : Type} [LinearOrderedField K]

/-- C11, as the code has it: for `r = 10` and the default `Cw2 = 0.3` the
intermediate `g = r + Cw2*(r^6 - r)` is `10 + 0.3*(10^6 - 10) = 300007`. -/
theorem fwG_at_ten : fwG (defaultCoeffs : Coeffs K) 10 = 10 + 3 / 10 * (10 ^ 6 - 10)
    ∧ fwG (defaultCoeffs : Coeffs K) 10 = 300007 := by
  constructor <;> norm_num [fwG, defaultCoeffs]

/-- C11 as stated fails: for `r = 10` and `Cw2 = 0.3` the code's `g` is not
`299997.7`; it exceeds that number by `9.3`. -/
theorem fwG_at_ten_counterexample :
    (defaultCoeffs : Coeffs ℚ).Cw2 = 3 / 10
      ∧ fwG (defaultCoeffs : Coeffs ℚ) 10 ≠ 2999977 / 10
      ∧ fwG (defaultCoeffs : Coeffs ℚ) 10 - 2999977 / 10 = 93 / 10 := by
  refine ⟨rfl, ?_, ?_⟩ <;> norm_num [fwG, defaultCoeffs]

end FwIntermediate

/-! ## The derived coefficient `Cw1` and the configuration -/

section DerivedCoefficient

variable {K : Type} [LinearOrderedField K]

/-- The coefficient set the constructor builds is read back unchanged from the
dictionary the constructor leaves. -/
theorem read_of_standardSA (d d' : Dict K) (c : Coeffs K)
    (h : standardSA d = some (c, d')) : read c (some d') = some (true, c) := by
  have hw := standardSA_Cw1 d d' c h
  simp only [standardSA, Option.map_eq_some'] at h
  obtain ⟨w, -, hc⟩ := h
  obtain ⟨hc1, hc2⟩ := Prod.mk.inj hc
  subst hc1
  subst hc2
  simp [read, readIfPresent, readSwitchIfPresent, lookupOrAddToDict_fst,
    lookupOrAddToDict_snd_other, lookupOrAddToDict_snd_self, lookupOrAddToDict_switches,
    lookupOrDefault] at hw ⊢
  refine ⟨w, hw, rfl, ?_⟩
  cases d.switches "neg" <;> simp

theorem standardSA_defined (d : Dict K)
    (hk : (d.scalars "kappa").getD (41 / 100) ≠ 0)
    (hs : (d.scalars "sigmaNut").getD (66666 / 100000) ≠ 0) :
    ∃ p, standardSA d = some p := by
  have hw := Cw1Of_eq_some ((d.scalars "Cb1").getD (1355 / 10000))
    ((d.scalars "kappa").getD (41 / 100)) ((d.scalars "Cb2").getD (622 / 1000))
    ((d.scalars "sigmaNut").getD (66666 / 100000)) hk hs
  simp [standardSA, lookupOrAddToDict_fst, lookupOrAddToDict_snd_other, hw]

theorem standardSA_emptyDict :
    (standardSA (emptyDict : Dict K)).map Prod.fst = some defaultCoeffs := by
  have hk : ((41 : K) / 100) ^ 2 ≠ 0 := by norm_num
  have hs : ((66666 : K) / 100000) ≠ 0 := by norm_num
  simp [standardSA, lookupOrAddToDict_fst, lookupOrAddToDict_snd_other,
    lookupOrAddToDict_switches, lookupOrDefault, emptyDict, Cw1Of, fdiv_of_ne _ hk,
    fdiv_of_ne _ hs, defaultCoeffs]

theorem reachable_defaultCoeffs : Reachable (defaultCoeffs : Coeffs K) := by
  have h := standardSA_emptyDict (K := K)
  simp only [Option.map_eq_some'] at h
  obtain ⟨p, hp, hc⟩ := h
  exact Reachable.ofConstructor emptyDict p.2 defaultCoeffs (by rw [hp, ← hc])

/-- C12: in every coefficient set reachable by construction followed by any
sequence of `read()` calls, `kappa` and `sigmaNut` are not zero and the stored
`Cw1` is `Cb1/kappa^2 + (1 + Cb2)/sigmaNut` of the stored values; and a
dictionary entry named `Cw1` changes neither what the constructor builds nor
what `read()` leaves. -/
theorem Cw1_consistent_of_reachable (c : Coeffs K) (h : Reachable c) :
    c.kappa ≠ 0 ∧ c.sigmaNut ≠ 0
      ∧ c.Cw1 = c.Cb1 / c.kappa ^ 2 + (1 + c.Cb2) / c.sigmaNut
      ∧ (∀ (d : Dict K) (v : K),
          (standardSA (d.setScalar "Cw1" v)).map Prod.fst = (standardSA d).map Prod.fst)
      ∧ ∀ (d : Dict K) (v : K), read c (some (d.setScalar "Cw1" v)) = read c (some d) := by
  obtain ⟨hk, hs, hw⟩ := (Cw1Of_eq_some_iff _ _ _ _ _).mp (reachable_Cw1 c h)
  refine ⟨hk, hs, hw, fun d v => ?_, fun d v => ?_⟩
  · simp [standardSA, lookupOrAddToDict_fst, lookupOrAddToDict_snd_other,
      lookupOrAddToDict_switches, Dict.setScalar, lookupOrDefault, Option.map_map,
      Function.comp_def]
  · simp [read, readIfPresent, readSwitchIfPresent, Dict.setScalar]

/-- Witness of `Cw1_consistent_of_reachable`: the coefficient set built from the
empty dictionary. -/
theorem Cw1_consistent_of_reachable_witness :
    (defaultCoeffs : Coeffs ℚ).kappa ≠ 0 ∧ (defaultCoeffs : Coeffs ℚ).sigmaNut ≠ 0
      ∧ (defaultCoeffs : Coeffs ℚ).Cw1
          = (defaultCoeffs : Coeffs ℚ).Cb1 / (defaultCoeffs : Coeffs ℚ).kappa ^ 2
            + (1 + (defaultCoeffs : Coeffs ℚ).Cb2) / (defaultCoeffs : Coeffs ℚ).sigmaNut :=
  let h := Cw1_consistent_of_reachable (defaultCoeffs : Coeffs ℚ) reachable_defaultCoeffs
  ⟨h.1, h.2.1, h.2.2.1⟩

/-- C13: the constructor run on the empty dictionary builds the default
coefficients; their `Cw1 = 0.1355/0.1681 + 1.622/0.66666` lies within `0.0005`
of `3.239`, and its two summands within `0.0005` of `0.8061` and `2.433`. -/
theorem default_Cw1_value :
    (standardSA (emptyDict : Dict ℚ)).map Prod.fst = some defaultCoeffs
      ∧ (defaultCoeffs : Coeffs ℚ).Cw1
          = (1355 / 10000) / (1681 / 10000) + (1622 / 1000) / (66666 / 100000)
      ∧ |(defaultCoeffs : Coeffs ℚ).Cw1 - 3239 / 1000| < 5 / 10000
      ∧ |(defaultCoeffs : Coeffs ℚ).Cb1 / (defaultCoeffs : Coeffs ℚ).kappa ^ 2
          - 8061 / 10000| < 5 / 10000
      ∧ |(1 + (defaultCoeffs : Coeffs ℚ).Cb2) / (defaultCoeffs : Coeffs ℚ).sigmaNut
          - 2433 / 1000| < 5 / 10000 := by
  refine ⟨standardSA_emptyDict, ?_, ?_, ?_, ?_⟩
  · norm_num [defaultCoeffs]
  · rw [abs_lt]; constructor <;> norm_num [defaultCoeffs]
  · rw [abs_lt]; constructor <;> norm_num [defaultCoeffs]
  · rw [abs_lt]; constructor <;> norm_num [defaultCoeffs]

/-- C14: for every initial dictionary whose `kappa` and `sigmaNut` (configured
or defaulted) are not zero, the constructor builds a coefficient set, and
`read()` with the base read succeeding on the dictionary the constructor left
returns true and leaves every coefficient, `Cw1` and `neg_` as they were. -/
theorem read_after_construct (d : Dict K)
    (hk : (d.scalars "kappa").getD (41 / 100) ≠ 0)
    (hs : (d.scalars "sigmaNut").getD (66666 / 100000) ≠ 0) :
    ∃ c d', standardSA d = some (c, d') ∧ read c (some d') = some (true, c) := by
  obtain ⟨p, hp⟩ := standardSA_defined d hk hs
  exact ⟨p.1, p.2, hp, read_of_standardSA d p.2 p.1 hp⟩

/-- Witness of `read_after_construct`: a dictionary that sets `kappa` to `1/2`
and `Cv1` to `7` and leaves the other keys out. -/
theorem read_after_construct_witness :
    ∃ c d', standardSA (((emptyDict : Dict ℚ).setScalar "kappa" (1 / 2)).setScalar "Cv1" 7)
        = some (c, d') ∧ read c (some d') = some (true, c) :=
  read_after_construct _ (by simp [Dict.setScalar, emptyDict])
    (by simp [Dict.setScalar, emptyDict])

/-- C15: `read()` returns a flag equal to whether the base read succeeded; when
the base read fails it returns false and leaves the coefficient set as it was;
when it succeeds on a dictionary `d` (with the resulting `kappa` and `sigmaNut`
not zero) it returns true, each coefficient takes the entry of `d` under its
name when there is one and keeps its prior value otherwise, likewise `neg_`,
and `Cw1` is recomputed. -/
theorem read_result_and_frame (c : Coeffs K) (d : Dict K)
    (hk : (d.scalars "kappa").getD c.kappa ≠ 0)
    (hs : (d.scalars "sigmaNut").getD c.sigmaNut ≠ 0) :
    read c none = some (false, c)
      ∧ (∀ base b c', read c base = some (b, c') → (b = true ↔ base.isSome = true))
      ∧ ∃ c', read c (some d) = some (true, c')
          ∧ c'.sigmaNut = (d.scalars "sigmaNut").getD c.sigmaNut
          ∧ c'.kappa = (d.scalars "kappa").getD c.kappa
          ∧ c'.Cb1 = (d.scalars "Cb1").getD c.Cb1
          ∧ c'.Cb2 = (d.scalars "Cb2").getD c.Cb2
          ∧ c'.Cw2 = (d.scalars "Cw2").getD c.Cw2
          ∧ c'.Cw3 = (d.scalars "Cw3").getD c.Cw3
          ∧ c'.Cv1 = (d.scalars "Cv1").getD c.Cv1
          ∧ c'.Cv2 = (d.scalars "Cv2").getD c.Cv2
          ∧ c'.Cv3 = (d.scalars "Cv3").getD c.Cv3
          ∧ c'.Ct3 = (d.scalars "Ct3").getD c.Ct3
          ∧ c'.Ct4 = (d.scalars "Ct4").getD c.Ct4
          ∧ c'.Cn1 = (d.scalars "Cn1").getD c.Cn1
          ∧ c'.Cs = (d.scalars "Cs").getD c.Cs
          ∧ c'.neg_ = (d.switches "neg").getD c.neg_
          ∧ c'.Cw1 = c'.Cb1 / c'.kappa ^ 2 + (1 + c'.Cb2) / c'.sigmaNut := by
  refine ⟨rfl, ?_, ?_⟩
  · intro base b c' h
    cases base with
    | none =>
      rw [read_none] at h
      have hb := (Prod.mk.inj (Option.some.inj h)).1
      simp [← hb]
    | some d0 =>
      simp only [read, Option.map_eq_some'] at h
      obtain ⟨w, -, hc⟩ := h
      have hb := (Prod.mk.inj hc).1
      simp [← hb]
  · have hw := Cw1Of_eq_some ((d.scalars "Cb1").getD c.Cb1) ((d.scalars "kappa").getD c.kappa)
      ((d.scalars "Cb2").getD c.Cb2) ((d.scalars "sigmaNut").getD c.sigmaNut) hk hs
    refine ⟨{ sigmaNut := (d.scalars "sigmaNut").getD c.sigmaNut
              kappa := (d.scalars "kappa").getD c.kappa
              Cb1 := (d.scalars "Cb1").getD c.Cb1
              Cb2 := (d.scalars "Cb2").getD c.Cb2
              Cw1 := (d.scalars "Cb1").getD c.Cb1 / (d.scalars "kappa").getD c.kappa ^ 2
                + (1 + (d.scalars "Cb2").getD c.Cb2) / (d.scalars "sigmaNut").getD c.sigmaNut
              Cw2 := (d.scalars "Cw2").getD c.Cw2
              Cw3 := (d.scalars "Cw3").getD c.Cw3
              Cv1 := (d.scalars "Cv1").getD c.Cv1
              Cv2 := (d.scalars "Cv2").getD c.Cv2
              Cv3 := (d.scalars "Cv3").getD c.Cv3
              Ct3 := (d.scalars "Ct3").getD c.Ct3
              Ct4 := (d.scalars "Ct4").getD c.Ct4
              Cn1 := (d.scalars "Cn1").getD c.Cn1
              Cs := (d.scalars "Cs").getD c.Cs
              neg_ := (d.switches "neg").getD c.neg_ }, ?_, ?_⟩
    · simp only [read, readIfPresent, readSwitchIfPresent, hw, Option.map_some']
    · simp

/-- Witness of `read_result_and_frame`: the default coefficients and a
dictionary whose only entry sets `Cb1` to `1/5`. -/
theorem read_result_and_frame_witness :
    read (defaultCoeffs : Coeffs ℚ) none = some (false, defaultCoeffs)
      ∧ ∃ c', read (defaultCoeffs : Coeffs ℚ)
            (some ((emptyDict : Dict ℚ).setScalar "Cb1" (1 / 5))) = some (true, c')
          ∧ c'.Cb1 = 1 / 5 ∧ c'.kappa = 41 / 100 := by
  obtain ⟨h1, -, c', h2, -, hkap, hcb1, -⟩ :=
    read_result_and_frame (defaultCoeffs : Coeffs ℚ)
      ((emptyDict : Dict ℚ).setScalar "Cb1" (1 / 5))
      (by simp [Dict.setScalar, emptyDict, defaultCoeffs])
      (by simp [Dict.setScalar, emptyDict, defaultCoeffs])
  refine ⟨h1, c', h2, ?_, ?_⟩
  · simpa [Dict.setScalar, emptyDict] using hcb1
  · simpa [Dict.setScalar, emptyDict, defaultCoeffs] using hkap

end DerivedCoefficient

/-! ## The step in a cell at rest, and the step with turbulence off -/

section RestAndDisabled

/-- C16: with `neg_` false, `nuTilda = 0`, `Omega = 0`, no gradient of
`nuTilda`, `nu`, `kappa`, `Cv1`, `Cw3`, `Cn1`, `sigmaNut` not zero, `y > 0` and
`small > 0`: `chi`, `fv1`, `Stilda` and `fw` are `0`; both branches of the
right-hand side (production term and sink coefficient) are zero, the assembled
equation has the gradient term `0` and only the source options on its right;
and when the source options are empty, the solver returns the zero solution of
that equation and the source corrections keep `0`, the step leaves
`nuTilda = 0` and `nut = 0`. -/
theorem correct_zero_scenario (c : Coeffs ℝ) (ext : External ℝ) (s : CellState ℝ)
    (hturb : ext.turbulence = true) (hneg : c.neg_ = false) (h0 : s.nuTilda = 0)
    (hnu : ext.nu ≠ 0) (hO : ext.Omega = 0) (hgrad : ext.magSqrGradNuTilda = 0)
    (hk : c.kappa ≠ 0) (hy : 0 < ext.y) (hCv1 : c.Cv1 ≠ 0) (hw : c.Cw3 ≠ 0)
    (hCn1 : c.Cn1 ≠ 0) (hs : c.sigmaNut ≠ 0) (hsmall : 0 < ext.small)
    (hsrc : ext.fvOptionsSource 0 = ⟨0, 0⟩)
    (hsolve : ∀ e : NuTildaEqn ℝ, e.gradTerm = 0 → e.source = ⟨0, 0⟩ →
      ext.solve (ext.constrain (ext.relax e)) = 0)
    (hhook1 : ext.fvOptionsCorrectNuTilda 0 = 0) (hhook2 : ext.fvOptionsCorrectNut 0 = 0) :
    chi s.nuTilda ext.nu = some 0 ∧ fv1 c 0 = some 0 ∧ Stilda c ext s.nuTilda 0 0 = some 0
      ∧ fw c ext s.nuTilda 0 = some 0
      ∧ LinForm.explicitMinusSp
            (c.Cb1 * (1 - ft2 c 0) * ext.alpha * ext.rho * 0 * s.nuTilda)
            ((c.Cw1 * ext.alpha * ext.rho * 0 * s.nuTilda
                - c.Cb1 * ext.alpha * ext.rho * ft2 c 0 * s.nuTilda / c.kappa ^ 2)
              / ext.y ^ 2)
          = ⟨0, 0⟩
      ∧ LinForm.explicitPlusSp
            (c.Cb1 * (1 - c.Ct3) * ext.alpha * ext.rho * ext.Omega * s.nuTilda)
            (c.Cw1 * ext.alpha * ext.rho * s.nuTilda / ext.y ^ 2)
          = ⟨0, 0⟩
      ∧ (∃ e, nuTildaEqn c ext s.nuTilda 0 0 = some e ∧ e.gradTerm = 0
          ∧ e.source = ext.fvOptionsSource 0)
      ∧ correct c ext s = some ⟨0, 0⟩ := by
  have hx : chi s.nuTilda ext.nu = some 0 := by
    rw [chi_eq_some _ hnu, h0, zero_div]
  have hv : (0 : ℝ) ^ 3 + c.Cv1 ^ 3 ≠ 0 := by
    simpa using pow_ne_zero 3 hCv1
  have hf : fv1 c 0 = some 0 := by
    rw [fv1_eq_some c 0 hv]
    simp
  have hst : Stilda c ext s.nuTilda 0 0 = some 0 := by
    rw [Stilda_eq_some_of_bounded c ext s.nuTilda 0 0 hneg (by norm_num) hk hy.ne', h0, hO]
    simp
  have hfw : fw c ext s.nuTilda 0 = some 0 := by
    rw [fw_eq_some c ext s.nuTilda 0 hk hy.ne' hsmall hw, h0]
    simp [fwG, fwValue]
  have hsource : nuTildaSource c ext s.nuTilda 0 (ft2 c 0) 0 = some (ext.fvOptionsSource 0) := by
    rw [nuTildaSource_eq_some c ext s.nuTilda 0 (ft2 c 0) 0 hk hy.ne', h0]
    simp [LinForm.add_def, LinForm.scale, LinForm.explicitMinusSp, LinForm.explicitPlusSp]
  have hD : DnuTildaEff c s.nuTilda ext.nu 0 = some ((s.nuTilda + ext.nu) / c.sigmaNut) :=
    DnuTildaEff_of_nonneg c s.nuTilda ext.nu 0 le_rfl (by simpa using hCn1) hs
  obtain ⟨e, he, hg, hes⟩ : ∃ e, nuTildaEqn c ext s.nuTilda 0 0 = some e ∧ e.gradTerm = 0
      ∧ e.source = ext.fvOptionsSource 0 := by
    refine ⟨{ diffusivity := ext.alpha * ext.rho * ((s.nuTilda + ext.nu) / c.sigmaNut)
              gradTerm := c.Cb2 / c.sigmaNut * ext.alpha * ext.rho * ext.magSqrGradNuTilda
              source := ext.fvOptionsSource 0 }, ?_, ?_, rfl⟩
    · simp [nuTildaEqn, hD, fdiv_of_ne _ hs, hfw, hsource]
    · simp [hgrad]
  refine ⟨hx, hf, hst, hfw, ?_, ?_, ⟨e, he, hg, hes⟩, ?_⟩
  · simp [LinForm.explicitMinusSp, h0]
  · simp [LinForm.explicitPlusSp, h0]
  · rw [correct_eq_some c ext s 0 0 0 e hturb hx hf hst he]
    have hsol := hsolve e hg (hes.trans hsrc)
    simp [correctNutOf, hneg, bound, hsol, hhook1, hhook2]

/-- Witness of `correct_zero_scenario`: the default coefficients in a cell with
`nu = 1e-5`, unit wall distance and a solver that returns `0`. -/
theorem correct_zero_scenario_witness :
    correct (defaultCoeffs : Coeffs ℝ) { plainExternal (0 : ℝ) with nu := 1 / 10 ^ 5 }
      ⟨0, 7⟩ = some ⟨0, 0⟩ :=
  (correct_zero_scenario (defaultCoeffs : Coeffs ℝ)
    { plainExternal (0 : ℝ) with nu := 1 / 10 ^ 5 } ⟨0, 7⟩ rfl rfl rfl
    (by norm_num) rfl rfl (by norm_num [defaultCoeffs]) (by norm_num [plainExternal])
    (by norm_num [defaultCoeffs]) (by norm_num [defaultCoeffs])
    (by norm_num [defaultCoeffs]) (by norm_num [defaultCoeffs])
    (by norm_num [plainExternal]) rfl (fun _ _ _ => rfl) rfl rfl).2.2.2.2.2.2.2

/-- C17: with the turbulence switch off, `correct()` returns at once and leaves
`nuTilda` and `nut` as they were, whatever the closures, the solver and the
hooks would do; the coefficients are no part of what it writes. -/
theorem correct_noop_when_disabled (c : Coeffs ℝ) (ext : External ℝ) (s : CellState ℝ)
    (hturb : ext.turbulence = false) : correct c ext s = some s := by
  simp [correct, hturb]

/-- Witness of `correct_noop_when_disabled`: a cell with `nu = 0`, in which
`chi` has no value, and a solver that would return `5`. -/
theorem correct_noop_when_disabled_witness :
    chi (-1 : ℝ) 0 = none
      ∧ correct (defaultCoeffs : Coeffs ℝ)
          { plainExternal (5 : ℝ) with nu := 0, turbulence := false } ⟨-1, 7⟩
        = some ⟨-1, 7⟩ :=
  ⟨by simp [chi, fdiv], correct_noop_when_disabled _ _ _ rfl⟩

end RestAndDisabled

/-! ## `Stilda` with negative `nuTilda` enabled -/

section StildaNegMode

variable {K : Type} [LinearOrderedField K]

/-- Where `Stilda` has a value it is bounded below: by `Cs*Omega >= 0` when
`neg_` is false and `Cs >= 0`, and by `(1 - Cv3)*Omega >= 0` when `neg_` is
true, `Cv2 <= Cv3 <= 1` and the divisor of the regularised quotient is not
zero. -/
theorem StildaOf_lower_bound (c : Coeffs K) (Omega sbar : K) (hO : 0 ≤ Omega) :
    (c.neg_ = false → 0 ≤ c.Cs →
        ∃ v, StildaOf c Omega sbar = some v ∧ c.Cs * Omega ≤ v ∧ 0 ≤ c.Cs * Omega)
      ∧ (c.neg_ = true → c.Cv2 ≤ c.Cv3 → c.Cv3 ≤ 1 →
          (c.Cv3 - 2 * c.Cv2) * Omega - sbar ≠ 0 →
          ∃ v, StildaOf c Omega sbar = some v ∧ (1 - c.Cv3) * Omega ≤ v
            ∧ 0 ≤ (1 - c.Cv3) * Omega) := by
  constructor
  · intro hneg hCs
    exact ⟨_, StildaOf_bounded c Omega sbar hneg, le_max_right _ _, mul_nonneg hCs hO⟩
  · intro hneg h23 h31 hd
    have h0 : 0 ≤ (1 - c.Cv3) * Omega := mul_nonneg (sub_nonneg.mpr h31) hO
    rcases le_or_lt 0 (c.Cv2 * Omega + sbar) with hsel | hsel
    · refine ⟨_, StildaOf_plain c Omega sbar hneg hsel hd, ?_, h0⟩
      have h : 0 ≤ (c.Cv3 - c.Cv2) * Omega := mul_nonneg (sub_nonneg.mpr h23) hO
      nlinarith
    · refine ⟨_, StildaOf_regularized c Omega sbar hneg hO h23 hsel, ?_, h0⟩
      have hD := Stilda_divisor_pos c Omega sbar hO h23 hsel
      have hval : Omega + Omega * (c.Cv2 ^ 2 * Omega + c.Cv3 * sbar)
            / ((c.Cv3 - 2 * c.Cv2) * Omega - sbar)
          = (1 - c.Cv3) * Omega
            + (Omega * (c.Cv3 - c.Cv2)) ^ 2 / ((c.Cv3 - 2 * c.Cv2) * Omega - sbar) := by
        field_simp
        ring
      rw [hval]
      have hq : 0 ≤ (Omega * (c.Cv3 - c.Cv2)) ^ 2 / ((c.Cv3 - 2 * c.Cv2) * Omega - sbar) :=
        div_nonneg (sq_nonneg _) hD.le
      linarith

/-- C18 at its failing input: with `neg_` true and the default `Cv2`, `Cv3`,
the divisor `(Cv3 - 2*Cv2)*Omega - Sbar` of the quotient is zero at
`Sbar = -Omega/2` for every `Omega`, for instance at `Omega = 2`, `Sbar = -1`,
and `Stilda`, which evaluates the quotient there, has no value. -/
theorem Stilda_divisor_zero :
    ((negCoeffs : Coeffs ℚ).Cv3 - 2 * (negCoeffs : Coeffs ℚ).Cv2) * 2 - (-1) = 0
      ∧ StildaOf (negCoeffs : Coeffs ℚ) 2 (-1) = none
      ∧ ∀ Omega : ℚ, StildaOf (negCoeffs : Coeffs ℚ) Omega (-Omega / 2) = none := by
  refine ⟨by norm_num [negCoeffs, defaultCoeffs], ?_, fun Omega => ?_⟩
  · exact StildaOf_fault _ _ _ rfl (by norm_num [negCoeffs, defaultCoeffs])
  · apply StildaOf_fault _ _ _ rfl
    simp only [negCoeffs, defaultCoeffs]
    ring

/-- C19 at its failing inputs: with `neg_` true, `Stilda` has no value, hence no
value that is `>= (1 - Cv3)*Omega`, in a cell at rest (`Omega = 0`, `Sbar = 0`)
with the default `Cv2 = 0.7`, `Cv3 = 0.9`, and in a cell with `Omega = 4`,
`Sbar = -1` when `Cv2 = 0.5`, `Cv3 = 0.75`; both pairs have
`0 <= Cv2 <= Cv3 <= 1`. -/
theorem Stilda_no_value_no_bound :
    (0 : ℚ) ≤ (negCoeffs : Coeffs ℚ).Cv2
      ∧ (negCoeffs : Coeffs ℚ).Cv2 ≤ (negCoeffs : Coeffs ℚ).Cv3
      ∧ (negCoeffs : Coeffs ℚ).Cv3 ≤ 1
      ∧ StildaOf (negCoeffs : Coeffs ℚ) 0 0 = none
      ∧ (¬ ∃ v, StildaOf (negCoeffs : Coeffs ℚ) 0 0 = some v
          ∧ (1 - (negCoeffs : Coeffs ℚ).Cv3) * 0 ≤ v)
      ∧ StildaOf { (negCoeffs : Coeffs ℚ) with Cv2 := 1 / 2, Cv3 := 3 / 4 } 4 (-1) = none
      ∧ ¬ ∃ v, StildaOf { (negCoeffs : Coeffs ℚ) with Cv2 := 1 / 2, Cv3 := 3 / 4 } 4 (-1)
            = some v
          ∧ (1 - 3 / 4) * 4 ≤ v := by
  have hF : StildaOf (negCoeffs : Coeffs ℚ) 0 0 = none :=
    StildaOf_fault _ _ _ rfl (by norm_num)
  have hG : StildaOf { (negCoeffs : Coeffs ℚ) with Cv2 := 1 / 2, Cv3 := 3 / 4 } 4 (-1)
      = none :=
    StildaOf_fault _ _ _ rfl (by norm_num)
  refine ⟨by norm_num [negCoeffs, defaultCoeffs], by norm_num [negCoeffs, defaultCoeffs],
    by norm_num [negCoeffs, defaultCoeffs], hF, ?_, hG, ?_⟩
  · rintro ⟨v, hv, -⟩
    rw [hF] at hv
    exact Option.noConfusion hv
  · rintro ⟨v, hv, -⟩
    rw [hG] at hv
    exact Option.noConfusion hv

theorem StildaOf_regularized_of_ne (c : Coeffs K) (Omega sbar : K) (hneg : c.neg_ = true)
    (hsel : c.Cv2 * Omega + sbar < 0) (hd : (c.Cv3 - 2 * c.Cv2) * Omega - sbar ≠ 0) :
    StildaOf c Omega sbar
      = some (Omega + Omega * (c.Cv2 ^ 2 * Omega + c.Cv3 * sbar)
          / ((c.Cv3 - 2 * c.Cv2) * Omega - sbar)) := by
  simp [StildaOf, hneg, fdiv_of_ne _ hd, neg_of_lt_zero hsel, pos_of_lt_zero hsel]

/-- Near the switch the divisor of the regularised quotient is not zero, and the
quotient `(Cv3 - Cv2)*Omega` over the divisor is at most `2` in size. -/
theorem Stilda_divisor_near_switch (c : Coeffs K) (Omega sbar : K) (hO : 0 < Omega)
    (hsel : c.Cv2 * Omega + sbar < 0)
    (hnear : -(c.Cv2 * Omega + sbar) ≤ |c.Cv3 - c.Cv2| * Omega / 2) :
    (c.Cv3 - 2 * c.Cv2) * Omega - sbar ≠ 0
      ∧ |(c.Cv3 - c.Cv2) * Omega / ((c.Cv3 - 2 * c.Cv2) * Omega - sbar)| ≤ 2 := by
  have habs : |(c.Cv3 - c.Cv2) * Omega| = |c.Cv3 - c.Cv2| * Omega := by
    rw [abs_mul, abs_of_pos hO]
  have hD : (c.Cv3 - 2 * c.Cv2) * Omega - sbar
      = (c.Cv3 - c.Cv2) * Omega + -(c.Cv2 * Omega + sbar) := by ring
  rcases le_or_lt 0 ((c.Cv3 - c.Cv2) * Omega) with ha | ha
  · have hpos : 0 < (c.Cv3 - 2 * c.Cv2) * Omega - sbar := by rw [hD]; linarith
    refine ⟨hpos.ne', ?_⟩
    rw [abs_div, abs_of_nonneg ha, abs_of_pos hpos, div_le_iff₀ hpos, hD]
    linarith
  · rw [abs_of_neg ha] at habs
    have hneg' : (c.Cv3 - 2 * c.Cv2) * Omega - sbar < 0 := by rw [hD]; linarith
    refine ⟨hneg'.ne, ?_⟩
    rw [abs_div, abs_of_neg ha, abs_of_neg hneg', div_le_iff₀ (by linarith), hD]
    linarith

/-- C20: with `neg_` true, `Omega > 0` and `Cv3 != Cv2`: on the regularised
branch (`Cv2*Omega + Sbar < 0`, divisor not zero) `Stilda` returns the
regularised expression; at the switch point `Sbar = -Cv2*Omega` that expression
has the value `(1 - Cv2)*Omega`, which is `Omega + Sbar`, the value `Stilda`
returns there; wherever the divisor is not zero the regularised expression
exceeds `Omega + Sbar` by `(Cv2*Omega + Sbar)^2` over the divisor; and for
`Sbar` below the switch by at most `|Cv3 - Cv2|*Omega/2` the value `Stilda`
returns differs from its value at the switch by at most twice that distance. -/
theorem Stilda_branches_agree_at_switch (c : Coeffs K) (Omega : K) (hneg : c.neg_ = true)
    (hO : 0 < Omega) (h : c.Cv3 ≠ c.Cv2) :
    (fdiv (Omega * (c.Cv2 ^ 2 * Omega + c.Cv3 * (-c.Cv2 * Omega)))
          ((c.Cv3 - 2 * c.Cv2) * Omega - (-c.Cv2 * Omega))).map (fun q => Omega + q)
        = some ((1 - c.Cv2) * Omega)
      ∧ StildaOf c Omega (-c.Cv2 * Omega) = some (Omega + (-c.Cv2 * Omega))
      ∧ Omega + (-c.Cv2 * Omega) = (1 - c.Cv2) * Omega
      ∧ (∀ sbar, (c.Cv3 - 2 * c.Cv2) * Omega - sbar ≠ 0 →
          Omega + Omega * (c.Cv2 ^ 2 * Omega + c.Cv3 * sbar)
              / ((c.Cv3 - 2 * c.Cv2) * Omega - sbar)
            = Omega + sbar
              + (c.Cv2 * Omega + sbar) ^ 2 / ((c.Cv3 - 2 * c.Cv2) * Omega - sbar))
      ∧ (∀ sbar, c.Cv2 * Omega + sbar < 0 → (c.Cv3 - 2 * c.Cv2) * Omega - sbar ≠ 0 →
          StildaOf c Omega sbar
            = some (Omega + Omega * (c.Cv2 ^ 2 * Omega + c.Cv3 * sbar)
                / ((c.Cv3 - 2 * c.Cv2) * Omega - sbar)))
      ∧ ∀ sbar, c.Cv2 * Omega + sbar < 0 →
          -(c.Cv2 * Omega + sbar) ≤ |c.Cv3 - c.Cv2| * Omega / 2 →
          ∃ v v0, StildaOf c Omega sbar = some v
            ∧ StildaOf c Omega (-c.Cv2 * Omega) = some v0
            ∧ |v - v0| ≤ 2 * -(c.Cv2 * Omega + sbar) := by
  have hd : (c.Cv3 - 2 * c.Cv2) * Omega - (-c.Cv2 * Omega) ≠ 0 := by
    have h1 : (c.Cv3 - 2 * c.Cv2) * Omega - (-c.Cv2 * Omega) = (c.Cv3 - c.Cv2) * Omega := by
      ring
    rw [h1]
    exact mul_ne_zero (sub_ne_zero.mpr h) hO.ne'
  have hplain : StildaOf c Omega (-c.Cv2 * Omega) = some (Omega + (-c.Cv2 * Omega)) :=
    StildaOf_plain c Omega _ hneg (by simp) hd
  refine ⟨?_, hplain, by ring, fun sbar hs => ?_,
    fun sbar hsel hs => StildaOf_regularized_of_ne c Omega sbar hneg hsel hs,
    fun sbar hsel hnear => ?_⟩
  · have hq : Omega * (c.Cv2 ^ 2 * Omega + c.Cv3 * (-c.Cv2 * Omega))
          / ((c.Cv3 - 2 * c.Cv2) * Omega - (-c.Cv2 * Omega)) = -c.Cv2 * Omega := by
      rw [div_eq_iff hd]
      ring
    rw [fdiv_of_ne _ hd, Option.map_some', hq]
    congr 1
    ring
  · field_simp
    ring
  · obtain ⟨hD, hq⟩ := Stilda_divisor_near_switch c Omega sbar hO hsel hnear
    refine ⟨_, _, StildaOf_regularized_of_ne c Omega sbar hneg hsel hD, hplain, ?_⟩
    have hval : Omega + Omega * (c.Cv2 ^ 2 * Omega + c.Cv3 * sbar)
          / ((c.Cv3 - 2 * c.Cv2) * Omega - sbar) - (Omega + (-c.Cv2 * Omega))
        = (c.Cv2 * Omega + sbar)
          * ((c.Cv3 - c.Cv2) * Omega / ((c.Cv3 - 2 * c.Cv2) * Omega - sbar)) := by
      field_simp
      ring
    rw [hval, abs_mul, abs_of_neg hsel]
    have hpos : 0 < -(c.Cv2 * Omega + sbar) := by linarith
    calc -(c.Cv2 * Omega + sbar)
          * |(c.Cv3 - c.Cv2) * Omega / ((c.Cv3 - 2 * c.Cv2) * Omega - sbar)|
        ≤ -(c.Cv2 * Omega + sbar) * 2 := mul_le_mul_of_nonneg_left hq hpos.le
      _ = 2 * -(c.Cv2 * Omega + sbar) := by ring

/-- Witness of `Stilda_branches_agree_at_switch`: the default `Cv2 = 0.7`,
`Cv3 = 0.9` with `neg_` true and `Omega = 10`: at the switch `Sbar = -7` the
value is `3`, and at `Sbar = -8`, on the regularised branch, the value is
within `2` of it. -/
theorem Stilda_branches_agree_at_switch_witness :
    StildaOf (negCoeffs : Coeffs ℚ) 10 (-(negCoeffs : Coeffs ℚ).Cv2 * 10)
        = some (10 + (-(negCoeffs : Coeffs ℚ).Cv2 * 10))
      ∧ ∃ v v0, StildaOf (negCoeffs : Coeffs ℚ) 10 (-8) = some v
          ∧ StildaOf (negCoeffs : Coeffs ℚ) 10 (-(negCoeffs : Coeffs ℚ).Cv2 * 10) = some v0
          ∧ |v - v0| ≤ 2 * -((negCoeffs : Coeffs ℚ).Cv2 * 10 + -8) :=
  let h := Stilda_branches_agree_at_switch (negCoeffs : Coeffs ℚ) 10 rfl (by norm_num)
    (by norm_num [negCoeffs, defaultCoeffs])
  ⟨h.2.1, h.2.2.2.2.2 (-8) (by norm_num [negCoeffs, defaultCoeffs])
    (by norm_num [negCoeffs, defaultCoeffs, abs_of_pos])⟩

end StildaNegMode

end StandardSA
